import Mathlib

/-
  Verification development for the capsule8 sensor core:
  - pkg/sys/perf trace-event decoding and the copy-on-write decoder registry
    (traceEventDecoder.decodeRawData, decodeDataType, traceEventDecoderMap),
  - pkg/sensor event stamping and dispatch (Sensor.NewEvent,
    Sensor.nextSequenceNumber, Sensor.dispatchSample, Sensor.NewEventFromSample).

  The Go code is shallowly embedded: byte slices are lists of naturals
  (every element of a Go byte slice is < 256), machine integers are Nat/Int
  with explicit reduction modulo 2^w where overflow matters, Go maps are
  association lists reasoned about through lookup, and fallible operations
  return an explicit result type.  A Go runtime panic (index out of range,
  slice bounds, integer divide by zero, failed type assertion) is modelled
  as a distinct result constructor named crash.
-/

set_option maxRecDepth 20000

/-! Generic association-list operations (the embedding of Go maps). -/

def lookupA {κ α : Type} [DecidableEq κ] : List (κ × α) → κ → Option α
  | [], _ => none
  | (k, v) :: rest, q => if q = k then some v else lookupA rest q

def eraseA {κ α : Type} [DecidableEq κ] (k : κ) : List (κ × α) → List (κ × α)
  | [] => []
  | (k2, v) :: rest => if k2 = k then eraseA k rest else (k2, v) :: eraseA k rest

/-- Map update with replace semantics, as Go map assignment m[k] = v. -/
def updA {κ α : Type} [DecidableEq κ] (k : κ) (v : α) (m : List (κ × α)) : List (κ × α) :=
  (k, v) :: eraseA k m

/-! Byte-level helpers shared by the embeddings of encoding/binary and crypto/sha256. -/

/-- Little-endian byte expansion of a natural, k bytes. -/
def leBytes : Nat → Nat → List Nat
  | 0, _ => []
  | k + 1, v => v % 256 :: leBytes k (v / 256)

/-- Big-endian byte expansion of a natural, k bytes. -/
def beBytes : Nat → Nat → List Nat
  | 0, _ => []
  | k + 1, v => beBytes k (v / 256) ++ [v % 256]

/-- Value of a little-endian byte list (each element < 256 for real byte slices). -/
def leVal : List Nat → Nat
  | [] => 0
  | b :: bs => b + 256 * leVal bs

/-- Little-endian two's-complement byte expansion of an integer, k bytes;
the embedding of binary.Write of a signed fixed-width integer. -/
def leBytesInt (k : Nat) (v : Int) : List Nat :=
  leBytes k (v.emod ((2 : Int) ^ (8 * k))).toNat

/-! Executable SHA-256 (the embedding of crypto/sha256.Sum256), over byte lists. -/

def M32 : Nat := 4294967296

def rotr32 (n x : Nat) : Nat := ((x >>> n) ||| (x <<< (32 - n))) % M32

def sumA0 (x : Nat) : Nat := (rotr32 2 x) ^^^ (rotr32 13 x) ^^^ (rotr32 22 x)

def sumA1 (x : Nat) : Nat := (rotr32 6 x) ^^^ (rotr32 11 x) ^^^ (rotr32 25 x)

def sumB0 (x : Nat) : Nat := (rotr32 7 x) ^^^ (rotr32 18 x) ^^^ (x >>> 3)

def sumB1 (x : Nat) : Nat := (rotr32 17 x) ^^^ (rotr32 19 x) ^^^ (x >>> 10)

def chF (x y z : Nat) : Nat := (x &&& y) ^^^ ((x ^^^ 4294967295) &&& z)

def majF (x y z : Nat) : Nat := (x &&& y) ^^^ (x &&& z) ^^^ (y &&& z)

def K256 : List Nat :=
  [1116352408, 1899447441, 3049323471, 3921009573, 961987163, 1508970993,
   2453635748, 2870763221, 3624381080, 310598401, 607225278, 1426881987,
   1925078388, 2162078206, 2614888103, 3248222580, 3835390401, 4022224774,
   264347078, 604807628, 770255983, 1249150122, 1555081692, 1996064986,
   2554220882, 2821834349, 2952996808, 3210313671, 3336571891, 3584528711,
   113926993, 338241895, 666307205, 773529912, 1294757372, 1396182291,
   1695183700, 1986661051, 2177026350, 2456956037, 2730485921, 2820302411,
   3259730800, 3345764771, 3516065817, 3600352804, 4094571909, 275423344,
   430227734, 506948616, 659060556, 883997877, 958139571, 1322822218,
   1537002063, 1747873779, 1955562222, 2024104815, 2227730452, 2361852424,
   2428436474, 2756734187, 3204031479, 3329325298]

def H256 : List Nat :=
  [1779033703, 3144134277, 1013904242, 2773480762, 1359893119, 2600822924,
   528734635, 1541459225]

def wordsBE : List Nat → List Nat
  | a :: b :: c :: d :: rest => (((a * 256 + b) * 256 + c) * 256 + d) :: wordsBE rest
  | _ => []

def extendStep (w : List Nat) : List Nat :=
  let l := w.length
  let a := w.getD (l - 16) 0
  let b := w.getD (l - 15) 0
  let c := w.getD (l - 7) 0
  let d := w.getD (l - 2) 0
  w ++ [(sumB1 d + c + sumB0 b + a) % M32]

def extendN : Nat → List Nat → List Nat
  | 0, w => w
  | n + 1, w => extendN n (extendStep w)

def schedule (chunk : List Nat) : List Nat := extendN 48 (wordsBE chunk)

def compressStep (s : List Nat) (kw : Nat × Nat) : List Nat :=
  match s with
  | [a, b, c, d, e, f, g, h] =>
    let t1 := (h + sumA1 e + chF e f g + kw.1 + kw.2) % M32
    let t2 := (sumA0 a + majF a b c) % M32
    [(t1 + t2) % M32, a, b, c, (d + t1) % M32, e, f, g]
  | _ => s

def compressChunk (hs : List Nat) (chunk : List Nat) : List Nat :=
  let fin := (List.zip K256 (schedule chunk)).foldl compressStep hs
  (List.zip hs fin).map (fun p => (p.1 + p.2) % M32)

def sha256pad (msg : List Nat) : List Nat :=
  let len := msg.length
  let zeros := (119 - (len % 64)) % 64
  msg ++ [128] ++ List.replicate zeros 0 ++ beBytes 8 (8 * len)

def sha256chunksAux : Nat → List Nat → List Nat → List Nat
  | 0, hs, _ => hs
  | fuel + 1, hs, msg =>
    match msg with
    | [] => hs
    | _ => sha256chunksAux fuel (compressChunk hs (msg.take 64)) (msg.drop 64)

/-- SHA-256 digest (32 bytes) of a byte list. -/
def sha256 (msg : List Nat) : List Nat :=
  let p := sha256pad msg
  ((sha256chunksAux p.length H256 p).map (beBytes 4)).flatten

def hexChar (n : Nat) : Char := if n < 10 then Char.ofNat (48 + n) else Char.ofNat (87 + n)

/-- Lowercase hex encoding of a byte list; the embedding of hex.EncodeToString. -/
def hexStr (bs : List Nat) : String :=
  String.mk (bs.foldr (fun b acc => hexChar (b / 16) :: hexChar (b % 16) :: acc) [])

/-! Sensor event stamping (pkg/sensor/sensor.go).

Sensor.NewEvent builds the hash input with three binary.Write calls in
little-endian order: the sensor id (a Go string), the uint64 sequence
number, and the int64 monotime.  encoding/binary.Write does not support
Go strings: it returns an error ("invalid type string") having written
nothing, and NewEvent discards that error, so the sensor id contributes
no bytes to the digest input. -/

def goBinaryWriteStringLE (_sensorId : List Nat) : List Nat := []

/-- Bytes actually hashed by Sensor.NewEvent for the event id. -/
def newEventHashInput (sensorId : List Nat) (seq : Nat) (monotime : Int) : List Nat :=
  goBinaryWriteStringLE sensorId ++ leBytes 8 seq ++ leBytesInt 8 monotime

/-- The event id produced by Sensor.NewEvent: lowercase hex of SHA-256 of the
bytes written into the buffer. -/
def newEventID (sensorId : List Nat) (seq : Nat) (monotime : Int) : String :=
  hexStr (sha256 (newEventHashInput sensorId seq monotime))

/-- Modelled from the spec: the event-id digest input claimed in section 6 of
the specification, namely the raw sensor-id bytes (64 bytes) followed by the
u64 sequence number little-endian and the i64 monotime little-endian. -/
def specEventIdInput (sensorId : List Nat) (seq : Nat) (monotime : Int) : List Nat :=
  sensorId ++ leBytes 8 seq ++ leBytesInt 8 monotime

/-- Modelled from the spec: the event id as the specification describes it. -/
def specEventID (sensorId : List Nat) (seq : Nat) (monotime : Int) : String :=
  hexStr (sha256 (specEventIdInput sensorId seq monotime))

def UINT64MOD : Nat := 18446744073709551616

/-- Sensor.nextSequenceNumber: increments the uint64 counter and returns it
(uint64 arithmetic wraps modulo 2^64). -/
def nextSequenceNumber (seq : Nat) : Nat := (seq + 1) % UINT64MOD

/-- Value of the sensor's sequence counter after n calls to
nextSequenceNumber starting from the zero value; the n-th emitted sequence
number (n >= 1) is seqAfterCalls n. -/
def seqAfterCalls : Nat → Nat
  | 0 => 0
  | n + 1 => nextSequenceNumber (seqAfterCalls n)

/-! Trace-event decoding (the perf package, traceEventDecoder).

A Go runtime panic is the crash constructor; a returned error is err. -/

inductive DecRes (α : Type) : Type
  | ok (a : α)
  | err (msg : String)
  | crash
deriving DecidableEq

def DecRes.isErr {α : Type} : DecRes α → Bool
  | .err _ => true
  | _ => false

/-- Trace-event field data types; the integer constants of the Go source are
opaque and only their identity matters, other covers every undefined value. -/
inductive TEType : Type
  | tstring
  | s8
  | s16
  | s32
  | s64
  | u8
  | u16
  | u32
  | u64
  | other
deriving DecidableEq

/-- The traceEventField schema record (fields used by decodeRawData). -/
structure TEField where
  FieldName : String
  Offset : Nat
  dataType : TEType
  dataTypeSize : Nat
  arraySize : Nat
  dataLocSize : Nat
deriving DecidableEq

/-- Decoded field values: the dynamic types decodeRawData stores into the
TraceEventSampleData map (a Go string is its raw bytes). -/
inductive FieldValue : Type
  | i8 (v : Int)
  | i16 (v : Int)
  | i32 (v : Int)
  | i64 (v : Int)
  | u8v (v : Nat)
  | u16v (v : Nat)
  | u32v (v : Nat)
  | u64v (v : Nat)
  | str (bytes : List Nat)
  | arr (vs : List FieldValue)

/-- Go slice expression raw[off:]; panics when off exceeds the length. -/
def sliceFrom (raw : List Nat) (off : Nat) : DecRes (List Nat) :=
  if off ≤ raw.length then .ok (raw.drop off) else .crash

/-- Go index expression raw[i]; panics when out of range. -/
def goIndex (raw : List Nat) (i : Nat) : DecRes Nat :=
  if i < raw.length then .ok (raw.getD i 0) else .crash

/-- Go slice expression raw[a:b]; panics unless a <= b <= length. -/
def goSubslice (raw : List Nat) (a b : Nat) : DecRes (List Nat) :=
  if a ≤ b ∧ b ≤ raw.length then .ok ((raw.take b).drop a) else .crash

/-- binary.LittleEndian.UintNN over the first k bytes of s; panics when s is
shorter than k, exactly as the Go bounds check does. -/
def readLE (k : Nat) (s : List Nat) : DecRes Nat :=
  if k ≤ s.length then .ok (leVal (s.take k)) else .crash

/-- binary.LittleEndian.UintNN(raw[off:]). -/
def readLEAt (k : Nat) (raw : List Nat) (off : Nat) : DecRes Nat :=
  match sliceFrom raw off with
  | .ok s => readLE k s
  | .err m => .err m
  | .crash => .crash

/-- Two's-complement reinterpretation of an unsigned w-bit value. -/
def toSigned (w n : Nat) : Int :=
  if n < 2 ^ (w - 1) then (n : Int) else (n : Int) - 2 ^ w

/-- decodeDataType from the perf package: scalar little-endian decoding;
a string data type in a scalar slot and an undefined data type are errors. -/
def decodeDataType : TEType → List Nat → DecRes FieldValue
  | .tstring, _ => .err "internal error; got unexpected TraceEventFieldTypeString"
  | .s8, s => match readLE 1 s with
    | .ok n => .ok (.i8 (toSigned 8 n))
    | _ => .crash
  | .s16, s => match readLE 2 s with
    | .ok n => .ok (.i16 (toSigned 16 n))
    | _ => .crash
  | .s32, s => match readLE 4 s with
    | .ok n => .ok (.i32 (toSigned 32 n))
    | _ => .crash
  | .s64, s => match readLE 8 s with
    | .ok n => .ok (.i64 (toSigned 64 n))
    | _ => .crash
  | .u8, s => match readLE 1 s with
    | .ok n => .ok (.u8v n)
    | _ => .crash
  | .u16, s => match readLE 2 s with
    | .ok n => .ok (.u16v n)
    | _ => .crash
  | .u32, s => match readLE 4 s with
    | .ok n => .ok (.u32v n)
    | _ => .crash
  | .u64, s => match readLE 8 s with
    | .ok n => .ok (.u64v n)
    | _ => .crash
  | .other, _ => .err "internal error; undefined dataType"

/-- The element loop of decodeRawData: decode count elements starting at off
with stride dts, each via decodeDataType on raw[off:]. -/
def decodeArrayLoop (raw : List Nat) (ty : TEType) (dts : Nat) : Nat → Nat → DecRes (List FieldValue)
  | _, 0 => .ok []
  | off, n + 1 =>
    match sliceFrom raw off with
    | .ok s =>
      match decodeDataType ty s with
      | .ok v =>
        match decodeArrayLoop raw ty dts (off + dts) n with
        | .ok vs => .ok (v :: vs)
        | .err m => .err m
        | .crash => .crash
      | .err m => .err m
      | .crash => .crash
    | .err m => .err m
    | .crash => .crash

/-- The dynamic-string length adjustment of decodeRawData: when the inline
length is positive, inspect the last inline byte (raw[dOff+dLen-1], a panic
when out of range) and drop one trailing NUL if present. -/
def stripLen (raw : List Nat) (dOff dLen : Nat) : DecRes Nat :=
  if 0 < dLen then
    match goIndex raw (dOff + dLen - 1) with
    | .ok b => .ok (if b = 0 then dLen - 1 else dLen)
    | .err m => .err m
    | .crash => .crash
  else .ok dLen

/-- Decoding of a dynamic (__data_loc) field once the inline offset and
length have been read.  For a non-string type the element count is
dLen / dataTypeSize; a zero dataTypeSize is a Go division-by-zero panic. -/
def decodeDynamic (raw : List Nat) (f : TEField) (dOff dLen : Nat) : DecRes FieldValue :=
  if f.dataType = .tstring then
    match stripLen raw dOff dLen with
    | .ok l2 =>
      match goSubslice raw dOff (dOff + l2) with
      | .ok bs => .ok (.str bs)
      | .err m => .err m
      | .crash => .crash
    | .err m => .err m
    | .crash => .crash
  else if f.dataTypeSize = 0 then .crash
  else
    match decodeArrayLoop raw f.dataType f.dataTypeSize dOff (dLen / f.dataTypeSize) with
    | .ok vs => .ok (.arr vs)
    | .err m => .err m
    | .crash => .crash

/-- Decoding of one schema field from the raw sample payload, following the
three-way branch of decodeRawData on dataLocSize and arraySize. -/
def decodeOneField (raw : List Nat) (f : TEField) : DecRes FieldValue :=
  if 0 < f.dataLocSize then
    if f.dataLocSize = 4 then
      match readLEAt 2 raw f.Offset with
      | .ok dOff =>
        match readLEAt 2 raw (f.Offset + 2) with
        | .ok dLen => decodeDynamic raw f dOff dLen
        | .err m => .err m
        | .crash => .crash
      | .err m => .err m
      | .crash => .crash
    else if f.dataLocSize = 8 then
      match readLEAt 4 raw f.Offset with
      | .ok dOff =>
        match readLEAt 4 raw (f.Offset + 4) with
        | .ok dLen => decodeDynamic raw f dOff dLen
        | .err m => .err m
        | .crash => .crash
      | .err m => .err m
      | .crash => .crash
    else .err "__data_loc size is neither 4 nor 8"
  else if f.arraySize = 0 then
    match sliceFrom raw f.Offset with
    | .ok s => decodeDataType f.dataType s
    | .err m => .err m
    | .crash => .crash
  else
    match decodeArrayLoop raw f.dataType f.dataTypeSize f.Offset f.arraySize with
    | .ok vs => .ok (.arr vs)
    | .err m => .err m
    | .crash => .crash

/-- The field loop of decodeRawData, accumulating the sample-data map; the
first error or panic aborts the whole decode.  fields is the schema as a
list (the Go map iterates its fields in unspecified order). -/
def decodeFields (raw : List Nat) : List TEField → List (String × FieldValue) → DecRes (List (String × FieldValue))
  | [], acc => .ok acc
  | f :: fs, acc =>
    match decodeOneField raw f with
    | .ok v => decodeFields raw fs (updA f.FieldName v acc)
    | .err m => .err m
    | .crash => .crash

/-- traceEventDecoder.decodeRawData. -/
def decodeRawData (fields : List TEField) (raw : List Nat) : DecRes (List (String × FieldValue)) :=
  decodeFields raw fields []

/-! DecodeSample (traceEventDecoderMap.DecodeSample). -/

structure SampleRecord where
  rawData : List Nat
  time : Nat
  cpu : Nat

/-- A registered decoder: the schema fields plus the caller-supplied
post-decoder function (returning a typed event, abstracted as Nat, or an
error message). -/
structure TraceDecoder where
  fields : List TEField
  decoderfn : SampleRecord → List (String × FieldValue) → Option Nat × Option String

/-- A published decoder-map snapshot as used on the decode path. -/
structure DecoderMapVal where
  decoders : List (Nat × TraceDecoder)

/-- traceEventDecoderMap.getDecoder through an atomically loaded snapshot
(none models the never-stored nil value). -/
def getDecoderM (dm : Option DecoderMapVal) (ty : Nat) : Option TraceDecoder :=
  match dm with
  | none => none
  | some d => lookupA d.decoders ty

/-- traceEventDecoderMap.DecodeSample: the event type is the low 16 bits of
the little-endian uint64 at the start of the raw data; a missing decoder is
not an error and yields the empty result. -/
def decodeSampleM (dm : Option DecoderMapVal) (s : SampleRecord) :
    DecRes (Option (List (String × FieldValue)) × Option Nat × Option String) :=
  match readLE 8 s.rawData with
  | .ok n =>
    match getDecoderM dm (n % 65536) with
    | none => .ok (none, none, none)
    | some d =>
      match decodeRawData d.fields s.rawData with
      | .ok data =>
        let r := d.decoderfn s data
        .ok (some data, r.1, r.2)
      | .err m => .ok (none, none, some m)
      | .crash => .crash
  | .err m => .err m
  | .crash => .crash

/-! Synthesized-payload layout predicates for the round-trip property.

A payload is synthesized for a schema by laying each field value out at the
field's offset: scalars and fixed arrays as little-endian bytes, dynamic
fields through a half-width little-endian (offset, length) word at the
field's offset pointing at an in-bounds inline region. -/

/-- The byte list pat occurs in raw starting at position off. -/
def prefixAt (raw : List Nat) (off : Nat) (pat : List Nat) : Prop :=
  ∃ rest, raw.drop off = pat ++ rest

/-- Little-endian encoding of one scalar value of a given data type, with
the value in the type's range. -/
inductive ScalarEnc : TEType → FieldValue → List Nat → Prop
  | u8 (n : Nat) (h : n < 256) : ScalarEnc .u8 (.u8v n) (leBytes 1 n)
  | u16 (n : Nat) (h : n < 65536) : ScalarEnc .u16 (.u16v n) (leBytes 2 n)
  | u32 (n : Nat) (h : n < 4294967296) : ScalarEnc .u32 (.u32v n) (leBytes 4 n)
  | u64 (n : Nat) (h : n < 18446744073709551616) : ScalarEnc .u64 (.u64v n) (leBytes 8 n)
  | s8 (v : Int) (h1 : -128 ≤ v) (h2 : v < 128) : ScalarEnc .s8 (.i8 v) (leBytesInt 1 v)
  | s16 (v : Int) (h1 : -32768 ≤ v) (h2 : v < 32768) : ScalarEnc .s16 (.i16 v) (leBytesInt 2 v)
  | s32 (v : Int) (h1 : -2147483648 ≤ v) (h2 : v < 2147483648) :
      ScalarEnc .s32 (.i32 v) (leBytesInt 4 v)
  | s64 (v : Int) (h1 : -9223372036854775808 ≤ v) (h2 : v < 9223372036854775808) :
      ScalarEnc .s64 (.i64 v) (leBytesInt 8 v)

/-- Consecutive elements encoded at off, off+dts, off+2*dts, ... -/
inductive ElemsLaid (raw : List Nat) (ty : TEType) (dts : Nat) : Nat → List FieldValue → Prop
  | nil (off : Nat) : ElemsLaid raw ty dts off []
  | cons (off : Nat) (v : FieldValue) (bytes : List Nat) (vs : List FieldValue)
      (henc : ScalarEnc ty v bytes) (hp : prefixAt raw off bytes)
      (hrest : ElemsLaid raw ty dts (off + dts) vs) :
      ElemsLaid raw ty dts off (v :: vs)

/-- One trailing NUL byte removed when present (the decoded value of a
dynamic string whose inline bytes are s). -/
def stripNul (s : List Nat) : List Nat :=
  if 0 < s.length ∧ s.getD (s.length - 1) 0 = 0 then s.dropLast else s

/-- Field f with value v is laid out in the synthesized payload raw. -/
inductive LaidField (raw : List Nat) : TEField → FieldValue → Prop
  | scalar (f : TEField) (v : FieldValue) (bytes : List Nat)
      (hd : f.dataLocSize = 0) (ha : f.arraySize = 0)
      (henc : ScalarEnc f.dataType v bytes) (hp : prefixAt raw f.Offset bytes) :
      LaidField raw f v
  | fixedArr (f : TEField) (vs : List FieldValue)
      (hd : f.dataLocSize = 0) (ha : f.arraySize = vs.length) (hne : vs ≠ [])
      (helems : ElemsLaid raw f.dataType f.dataTypeSize f.Offset vs) :
      LaidField raw f (.arr vs)
  | dynString (f : TEField) (dOff : Nat) (inline : List Nat)
      (hdl : f.dataLocSize = 4 ∨ f.dataLocSize = 8)
      (hty : f.dataType = .tstring)
      (hob : dOff < 2 ^ (8 * (f.dataLocSize / 2)))
      (hlb : inline.length < 2 ^ (8 * (f.dataLocSize / 2)))
      (hloc : prefixAt raw f.Offset
        (leBytes (f.dataLocSize / 2) dOff ++ leBytes (f.dataLocSize / 2) inline.length))
      (hinl : prefixAt raw dOff inline)
      (hbound : dOff + inline.length ≤ raw.length) :
      LaidField raw f (.str (stripNul inline))
  | dynArr (f : TEField) (dOff : Nat) (vs : List FieldValue)
      (hdl : f.dataLocSize = 4 ∨ f.dataLocSize = 8)
      (hty : f.dataType ≠ .tstring)
      (hdts : 0 < f.dataTypeSize)
      (hob : dOff < 2 ^ (8 * (f.dataLocSize / 2)))
      (hlb : vs.length * f.dataTypeSize < 2 ^ (8 * (f.dataLocSize / 2)))
      (hloc : prefixAt raw f.Offset
        (leBytes (f.dataLocSize / 2) dOff ++ leBytes (f.dataLocSize / 2) (vs.length * f.dataTypeSize)))
      (helems : ElemsLaid raw f.dataType f.dataTypeSize dOff vs) :
      LaidField raw f (.arr vs)

/-! Copy-on-write decoder registry (traceEventDecoderMap) as a small heap of
decoderMap cells: each published snapshot is a cell; the atomic.Value holds
a reference to the active cell.  Mutating a cell in place is visible to every
reader holding that reference; the safe operations allocate a fresh cell. -/

/-- A registered decoder for registry-level reasoning: the event name it was
built from and a tag identifying the caller-supplied decoder function. -/
structure RegDecoder where
  srcName : String
  fnTag : Nat
deriving DecidableEq

/-- The decoderMap value: decoders keyed by event id, names keyed by event
name. -/
structure DMapV where
  decoders : List (Nat × RegDecoder)
  names : List (String × Nat)
deriving DecidableEq

/-- The environment supplying kernel-assigned event ids per event name
(getTraceEventFormat through newTraceEventDecoder). -/
structure RegEnv where
  schemaId : String → Nat

def emptyDM : DMapV := ⟨[], []⟩

/-- decoderMap.add: store the decoder under the id and the name under the
name map (replace semantics, as in Go maps). -/
def dmAdd (env : RegEnv) (name : String) (fn : Nat) (dm : DMapV) : DMapV :=
  ⟨updA (env.schemaId name) ⟨name, fn⟩ dm.decoders, updA name (env.schemaId name) dm.names⟩

/-- The heap of decoderMap cells: store maps references to cell values, next
is the next fresh reference, active is the reference held by the
atomic.Value (none until the first store). -/
structure RegHeap where
  store : List (Nat × DMapV)
  next : Nat
  active : Option Nat
deriving DecidableEq

def regInit : RegHeap := ⟨[], 0, none⟩

/-- traceEventDecoderMap.getDecoderMap: load the active snapshot. -/
def readActive (h : RegHeap) : Option DMapV :=
  match h.active with
  | none => none
  | some r => lookupA h.store r

/-- traceEventDecoderMap.AddDecoder: copy the loaded snapshot into a fresh
map, add, and publish the fresh cell with a single atomic store. -/
def addDecoderSafe (env : RegEnv) (name : String) (fn : Nat) (h : RegHeap) : RegHeap :=
  let base := (readActive h).getD emptyDM
  ⟨updA h.next (dmAdd env name fn base) h.store, h.next + 1, some h.next⟩

/-- traceEventDecoderMap.RemoveDecoder: when the name is registered, publish
a fresh cell omitting the name and its id; otherwise no store happens. -/
def removeDecoderSafe (name : String) (h : RegHeap) : RegHeap :=
  match readActive h with
  | none => h
  | some dm =>
    match lookupA dm.names name with
    | none => h
    | some id =>
      ⟨updA h.next ⟨eraseA id dm.decoders, eraseA name dm.names⟩ h.store, h.next + 1, some h.next⟩

/-- traceEventDecoderMap.addDecoderInPlace: mutate the loaded snapshot cell
without copying (creating and storing an empty cell first when none was
published yet). -/
def addDecoderInPlace (env : RegEnv) (name : String) (fn : Nat) (h : RegHeap) : RegHeap :=
  match h.active with
  | none =>
    ⟨updA h.next (dmAdd env name fn emptyDM) h.store, h.next + 1, some h.next⟩
  | some r =>
    ⟨updA r (dmAdd env name fn ((lookupA h.store r).getD emptyDM)) h.store, h.next, h.active⟩

/-- traceEventDecoderMap.removeDecoderInPlace: delete from the loaded
snapshot cell without copying. -/
def removeDecoderInPlace (name : String) (h : RegHeap) : RegHeap :=
  match h.active with
  | none => h
  | some r =>
    match lookupA h.store r with
    | none => h
    | some dm =>
      match lookupA dm.names name with
      | none => h
      | some id =>
        ⟨updA r ⟨eraseA id dm.decoders, eraseA name dm.names⟩ h.store, h.next, h.active⟩

inductive SafeOp : Type
  | add (name : String) (fn : Nat)
  | remove (name : String)

def applySafe (env : RegEnv) (h : RegHeap) : SafeOp → RegHeap
  | .add name fn => addDecoderSafe env name fn h
  | .remove name => removeDecoderSafe name h

def runSafe (env : RegEnv) (h : RegHeap) : List SafeOp → RegHeap
  | [] => h
  | op :: ops => runSafe env (applySafe env h op) ops

/-- Name/id bijection of a decoderMap value: names resolve to the
kernel-assigned id of the name and to a decoder registered under that name,
and every registered decoder is reachable from its name. -/
def RegInv (env : RegEnv) (dm : DMapV) : Prop :=
  (∀ n id, lookupA dm.names n = some id →
    id = env.schemaId n ∧ ∃ d, lookupA dm.decoders id = some d ∧ d.srcName = n)
  ∧ (∀ id d, lookupA dm.decoders id = some d → lookupA dm.names d.srcName = some id)

/-- Heap well-formedness: every allocated cell reference is below next. -/
def RegWF (h : RegHeap) : Prop :=
  ∀ r v, lookupA h.store r = some v → r < h.next

/-! Dispatch (Sensor.dispatchSample).  Each subscription has an optional
data channel (s.data, nil modelled by hasData = false), an optional filter
whose evaluation yields a value or an error (none), and a bounded buffered
channel with capacity cap and queued events buf.  A plain Go channel send
with no ready receiver appends when the buffer has room and otherwise
blocks the sending goroutine; with a subscriber that never reads, a send on
a full channel blocks the dispatcher for good, which the Bool component
records (true = dispatcher blocked, remaining subscriptions unprocessed). -/

structure EMSample where
  errFlag : Bool
  decoded : Option Nat
  fieldsTag : Nat

structure SubChan where
  hasData : Bool
  filter : Option (EMSample → Option Bool)
  cap : Nat
  buf : List Nat

/-- The per-subscription guard of dispatchSample: skip when s.data is nil,
when the filter errors, or when the filter value is not true. -/
def subEligible (smp : EMSample) (s : SubChan) : Bool :=
  if s.hasData then
    match s.filter with
    | none => true
    | some fn =>
      match fn smp with
      | none => false
      | some b => b
  else false

/-- The forEach body of dispatchSample over the subscription list, with the
blocking send semantics of s.data <- event. -/
def dispatchLoop (smp : EMSample) (ev : Nat) : List SubChan → List SubChan × Bool
  | [] => ([], false)
  | s :: rest =>
    if subEligible smp s then
      if s.buf.length < s.cap then
        let r := dispatchLoop smp ev rest
        ({ s with buf := s.buf ++ [ev] } :: r.1, r.2)
      else (s :: rest, true)
    else
      let r := dispatchLoop smp ev rest
      (s :: r.1, r.2)

/-- Sensor.dispatchSample: dispatch only when the decoded sample is a
non-nil telemetry event. -/
def dispatchSampleM (subs : List SubChan) (smp : EMSample) : List SubChan × Bool :=
  match smp.decoded with
  | some ev => dispatchLoop smp ev subs
  | none => (subs, false)

/-! Sensor event construction (Sensor.NewEvent, Sensor.NewEventFromSample). -/

inductive GoRes (α : Type) : Type
  | ok (a : α)
  | crash

structure SensorState where
  id : List Nat
  sequenceNumber : Nat
  bootMonotimeNanos : Int

structure TelemetryEvt where
  id : String
  sensorId : List Nat
  sensorMonotimeNanos : Int
  sensorSequenceNumber : Nat
  processPid : Int
  cpu : Nat
  processId : String
  containerId : String
  containerName : String
  imageId : String
  imageName : String

/-- The sensor's external collaborators: process cache and container info
lookups. -/
structure SensorEnv where
  processId : Int → Option String
  processContainerId : Int → Option String
  containerInfo : String → Option (String × String × String)

/-- Sensor.NewEvent, with the current monotime reading passed in: stamps
id, sensor id, monotime and the next sequence number. -/
def newEventM (st : SensorState) (monotime : Int) : TelemetryEvt × SensorState :=
  let seq := nextSequenceNumber st.sequenceNumber
  ({ id := newEventID st.id seq monotime
     sensorId := st.id
     sensorMonotimeNanos := monotime
     sensorSequenceNumber := seq
     processPid := 0
     cpu := 0
     processId := ""
     containerId := ""
     containerName := ""
     imageId := ""
     imageName := "" },
   { st with sequenceNumber := seq })

/-- True exactly when the decoded data holds key common_pid at dynamic type
int32 (the only shape the unchecked type assertion accepts). -/
def hasCommonPidI32 (data : List (String × FieldValue)) : Bool :=
  match lookupA data "common_pid" with
  | some (.i32 _) => true
  | _ => false

/-- Sensor.NewEventFromSample: build a fresh event, override its monotime
from the sample, then read common_pid with an unchecked Go type assertion
(a crash when the key is absent or not an int32) and enrich from the
process and container caches. -/
def newEventFromSampleM (env : SensorEnv) (st : SensorState) (monotimeNow : Int)
    (sample : SampleRecord) (data : List (String × FieldValue)) :
    GoRes (TelemetryEvt × SensorState) :=
  let r0 := newEventM st monotimeNow
  let e1 := { r0.1 with sensorMonotimeNanos := (sample.time : Int) - st.bootMonotimeNanos }
  match lookupA data "common_pid" with
  | some (.i32 pid) =>
    let e2 := { e1 with processPid := pid, cpu := sample.cpu }
    let e3 :=
      match env.processId pid with
      | some ps => { e2 with processId := ps }
      | none => e2
    let e4 :=
      match env.processContainerId pid with
      | none => e3
      | some cid =>
        let e5 := { e3 with containerId := cid }
        match env.containerInfo cid with
        | none => e5
        | some info => { e5 with containerName := info.1, imageId := info.2.1, imageName := info.2.2 }
    .ok (e4, r0.2)
  | _ => .crash

/-! A concretely injective name-to-id assignment, used to instantiate the
registry environment: tracefs assigns distinct ids to distinct events. -/

def natsCode : List Nat → Nat
  | [] => 0
  | n :: ns => n + 1 + 8589934592 * natsCode ns

def strCode (s : String) : Nat := natsCode (s.data.map Char.toNat)

def injEnv : RegEnv := ⟨strCode⟩

/-- Byte width of the scalar (integer) data types. -/
def scalarSize : TEType → Option Nat
  | .s8 => some 1
  | .u8 => some 1
  | .s16 => some 2
  | .u16 => some 2
  | .s32 => some 4
  | .u32 => some 4
  | .s64 => some 8
  | .u64 => some 8
  | _ => none

/-! Helper lemmas. -/

theorem lookupA_eraseA {κ α : Type} [DecidableEq κ] (k q : κ) (m : List (κ × α)) :
    lookupA (eraseA k m) q = if q = k then none else lookupA m q := by
  induction m with
  | nil => simp [eraseA, lookupA]
  | cons p rest ih =>
    obtain ⟨k2, v⟩ := p
    by_cases h1 : k2 = k
    · subst h1
      by_cases h2 : q = k2
      · subst h2
        simp [eraseA, lookupA, ih]
      · simp [eraseA, lookupA, h2, ih]
    · by_cases h2 : q = k2
      · subst h2
        have h3 : ¬ q = k := h1
        simp [eraseA, lookupA, h1, h3, lookupA]
      · simp [eraseA, lookupA, h1, h2, ih]

theorem lookupA_updA {κ α : Type} [DecidableEq κ] (k q : κ) (v : α) (m : List (κ × α)) :
    lookupA (updA k v m) q = if q = k then some v else lookupA m q := by
  by_cases h : q = k <;> simp [updA, lookupA, h, lookupA_eraseA]

theorem getD_drop {α : Type} (d : α) : ∀ (l : List α) (n i : Nat), (l.drop n).getD i d = l.getD (n + i) d := by
  intro l
  induction l with
  | nil => intro n i; simp
  | cons a l ih =>
    intro n i
    cases n with
    | zero => simp
    | succ n =>
      have hidx : n + 1 + i = (n + i) + 1 := by omega
      rw [List.drop_succ_cons, hidx, List.getD_cons_succ]
      exact ih n i

theorem leBytes_length (k : Nat) : ∀ v, (leBytes k v).length = k := by
  induction k with
  | zero => intro v; simp [leBytes]
  | succ k ih => intro v; simp [leBytes, ih]

theorem leVal_leBytes (k : Nat) : ∀ v, leVal (leBytes k v) = v % 256 ^ k := by
  induction k with
  | zero =>
    intro v
    simp [leBytes, leVal]
    omega
  | succ k ih =>
    intro v
    calc leVal (leBytes (k + 1) v) = v % 256 + 256 * (v / 256 % 256 ^ k) := by
          simp [leBytes, leVal, ih]
    _ = v % (256 * 256 ^ k) := (Nat.mod_mul).symm
    _ = v % 256 ^ (k + 1) := by rw [pow_succ, Nat.mul_comm]

theorem leBytes_ne_nil (k v : Nat) (h : 0 < k) : leBytes k v ≠ [] := by
  cases k with
  | zero => omega
  | succ k => simp [leBytes]

theorem readLE_leBytes (k n : Nat) (rest : List Nat) (h : n < 256 ^ k) :
    readLE k (leBytes k n ++ rest) = .ok n := by
  have hlen : (leBytes k n).length = k := leBytes_length k n
  have hle : k ≤ (leBytes k n ++ rest).length := by
    simp [hlen]
  rw [readLE, if_pos hle]
  have htake := List.take_left (leBytes k n) rest
  rw [hlen] at htake
  rw [htake, leVal_leBytes, Nat.mod_eq_of_lt h]

theorem prefixAt_bound {raw : List Nat} {off : Nat} {pat : List Nat}
    (h : prefixAt raw off pat) (hne : pat ≠ []) : off + pat.length ≤ raw.length := by
  obtain ⟨rest, hr⟩ := h
  have hlen : raw.length - off = pat.length + rest.length := by
    have hc := congrArg List.length hr
    simpa using hc
  by_cases hle : off ≤ raw.length
  · omega
  · exfalso
    have hnil : raw.drop off = [] := List.drop_eq_nil_of_le (by omega)
    rw [hnil] at hr
    have := List.append_eq_nil.mp hr.symm
    exact hne this.1

theorem prefixAt_append {raw : List Nat} {off : Nat} {a b : List Nat}
    (h : prefixAt raw off (a ++ b)) :
    prefixAt raw off a ∧ prefixAt raw (off + a.length) b := by
  obtain ⟨rest, hr⟩ := h
  constructor
  · exact ⟨b ++ rest, by rw [hr]; simp⟩
  · refine ⟨rest, ?_⟩
    have hd : raw.drop (off + a.length) = (raw.drop off).drop a.length := by
      rw [List.drop_drop]
    rw [hd, hr, List.append_assoc, List.drop_left]

theorem toSigned_round (w : Nat) (hw : 0 < w) (v : Int)
    (h1 : -((2:Int) ^ (w - 1)) ≤ v) (h2 : v < (2:Int) ^ (w - 1)) :
    toSigned w ((v.emod ((2:Int) ^ w)).toNat) = v := by
  have hP : (0:Int) < 2 ^ (w - 1) := by positivity
  have h2w : (2:Int) ^ w = 2 ^ (w - 1) * 2 := by
    conv_lhs => rw [show w = (w - 1) + 1 by omega]
    rw [pow_succ]
  have hM : (0:Int) < 2 ^ w := by positivity
  have hcast : ((2 ^ (w - 1) : Nat) : Int) = (2:Int) ^ (w - 1) := by push_cast; ring
  set m : Int := v.emod ((2:Int) ^ w) with hm
  have hm0 : 0 ≤ m := Int.emod_nonneg v (by omega)
  have hmlt : m < 2 ^ w := Int.emod_lt_of_pos v hM
  have hval : (m.toNat : Int) = m := Int.toNat_of_nonneg hm0
  have hcases : m = v ∨ m = v + 2 ^ w := by
    rcases le_or_lt 0 v with hv | hv
    · left
      rw [hm]
      exact Int.emod_eq_of_lt hv (by linarith)
    · right
      rw [hm]
      have hstep : (v + 1 * 2 ^ w).emod (2 ^ w) = v.emod (2 ^ w) := Int.add_mul_emod_self
      have hv2 : v.emod (2 ^ w) = (v + 2 ^ w).emod (2 ^ w) := by
        rw [← hstep]; ring_nf
      rw [hv2]
      exact Int.emod_eq_of_lt (by linarith) (by linarith)
  unfold toSigned
  rcases hcases with hc | hc
  · rw [if_pos]
    · omega
    · have hint : (m.toNat : Int) < ((2 ^ (w - 1) : Nat) : Int) := by
        rw [hval, hcast]; omega
      exact_mod_cast hint
  · rw [if_neg]
    · rw [hval, hc]; ring
    · have hge : ((2 ^ (w - 1) : Nat) : Int) ≤ (m.toNat : Int) := by
        rw [hval, hcast, hc, h2w]; linarith
      intro hlt
      have hcontra : (m.toNat : Int) < ((2 ^ (w - 1) : Nat) : Int) := by exact_mod_cast hlt
      linarith

theorem sliceFrom_of_le {raw : List Nat} {off : Nat} (h : off ≤ raw.length) :
    sliceFrom raw off = .ok (raw.drop off) := by
  rw [sliceFrom, if_pos h]

theorem goIndex_of_lt {raw : List Nat} {i : Nat} (h : i < raw.length) :
    goIndex raw i = .ok (raw.getD i 0) := by
  rw [goIndex, if_pos h]

theorem goSubslice_of_le {raw : List Nat} {a b : Nat} (h1 : a ≤ b) (h2 : b ≤ raw.length) :
    goSubslice raw a b = .ok ((raw.take b).drop a) := by
  rw [goSubslice, if_pos ⟨h1, h2⟩]

theorem readLEAt_prefix {k n : Nat} {raw rest : List Nat} {off : Nat}
    (hr : raw.drop off = leBytes k n ++ rest) (hoff : off ≤ raw.length) (hn : n < 256 ^ k) :
    readLEAt k raw off = .ok n := by
  simp only [readLEAt, sliceFrom_of_le hoff, hr, readLE_leBytes k n rest hn]

theorem leBytesInt_val_lt (k : Nat) (v : Int) : (v.emod ((2:Int) ^ (8 * k))).toNat < 256 ^ k := by
  have hpos : (0:Int) < 2 ^ (8 * k) := by positivity
  have hlt := Int.emod_lt_of_pos v hpos
  have h0 : 0 ≤ v.emod ((2:Int) ^ (8 * k)) := Int.emod_nonneg v (ne_of_gt hpos)
  have hcast : ((256 ^ k : Nat) : Int) = (2:Int) ^ (8 * k) := by
    push_cast
    rw [pow_mul]
    norm_num
  have hfin : (((v.emod ((2:Int) ^ (8 * k))).toNat : Nat) : Int) < ((256 ^ k : Nat) : Int) := by
    rw [Int.toNat_of_nonneg h0, hcast]
    exact hlt
  exact_mod_cast hfin

theorem scalarEnc_ne_nil {ty : TEType} {v : FieldValue} {bytes : List Nat}
    (h : ScalarEnc ty v bytes) : bytes ≠ [] := by
  cases h <;> simp [leBytes, leBytesInt]

theorem decodeDataType_enc {ty : TEType} {v : FieldValue} {bytes : List Nat}
    (h : ScalarEnc ty v bytes) : ∀ rest : List Nat, decodeDataType ty (bytes ++ rest) = .ok v := by
  intro rest
  cases h with
  | u8 n hn =>
    simp only [decodeDataType, readLE_leBytes 1 n rest (by simpa using hn)]
  | u16 n hn =>
    simp only [decodeDataType, readLE_leBytes 2 n rest (by norm_num at hn ⊢; omega)]
  | u32 n hn =>
    simp only [decodeDataType, readLE_leBytes 4 n rest (by norm_num at hn ⊢; omega)]
  | u64 n hn =>
    simp only [decodeDataType, readLE_leBytes 8 n rest (by norm_num at hn ⊢; omega)]
  | s8 v h1 h2 =>
    simp only [decodeDataType, leBytesInt, readLE_leBytes _ _ rest (leBytesInt_val_lt 1 v)]
    have hs := toSigned_round 8 (by norm_num) v (by norm_num; linarith) (by norm_num; linarith)
    norm_num at hs
    norm_num [hs]
  | s16 v h1 h2 =>
    simp only [decodeDataType, leBytesInt, readLE_leBytes _ _ rest (leBytesInt_val_lt 2 v)]
    have hs := toSigned_round 16 (by norm_num) v (by norm_num; linarith) (by norm_num; linarith)
    norm_num at hs
    norm_num [hs]
  | s32 v h1 h2 =>
    simp only [decodeDataType, leBytesInt, readLE_leBytes _ _ rest (leBytesInt_val_lt 4 v)]
    have hs := toSigned_round 32 (by norm_num) v (by norm_num; linarith) (by norm_num; linarith)
    norm_num at hs
    norm_num [hs]
  | s64 v h1 h2 =>
    simp only [decodeDataType, leBytesInt, readLE_leBytes _ _ rest (leBytesInt_val_lt 8 v)]
    have hs := toSigned_round 64 (by norm_num) v (by norm_num; linarith) (by norm_num; linarith)
    norm_num at hs
    norm_num [hs]

theorem elemsLaid_decode {raw : List Nat} {ty : TEType} {dts : Nat} {off : Nat} {vs : List FieldValue}
    (h : ElemsLaid raw ty dts off vs) :
    decodeArrayLoop raw ty dts off vs.length = .ok vs := by
  induction h with
  | nil off => rfl
  | cons off v bytes vs henc hp hrest ih =>
    obtain ⟨rest, hr⟩ := hp
    have hoff : off ≤ raw.length := by
      have := prefixAt_bound ⟨rest, hr⟩ (scalarEnc_ne_nil henc)
      omega
    simp only [List.length_cons, decodeArrayLoop, sliceFrom_of_le hoff, hr,
      decodeDataType_enc henc, ih]

theorem subslice_prefix {raw inline rest2 : List Nat} {dOff m : Nat}
    (hr : raw.drop dOff = inline ++ rest2) (hm : m ≤ inline.length) :
    (raw.take (dOff + m)).drop dOff = inline.take m := by
  rw [List.drop_take (dOff + m) dOff raw, Nat.add_sub_cancel_left, hr,
    List.take_append_of_le_length hm]

theorem decodeOneField_dyn {raw : List Nat} {f : TEField} {dOff dLen : Nat}
    (hdl : f.dataLocSize = 4 ∨ f.dataLocSize = 8)
    (hob : dOff < 2 ^ (8 * (f.dataLocSize / 2)))
    (hlb : dLen < 2 ^ (8 * (f.dataLocSize / 2)))
    (hloc : prefixAt raw f.Offset
      (leBytes (f.dataLocSize / 2) dOff ++ leBytes (f.dataLocSize / 2) dLen)) :
    decodeOneField raw f = decodeDynamic raw f dOff dLen := by
  rcases hdl with hc | hc
  · rw [hc] at hob hlb hloc
    norm_num at hob hlb hloc
    obtain ⟨hA, hB⟩ := prefixAt_append hloc
    have hbnd := prefixAt_bound hA (leBytes_ne_nil 2 dOff (by norm_num))
    rw [leBytes_length] at hbnd
    rw [leBytes_length] at hB
    obtain ⟨r1, hr1⟩ := hA
    obtain ⟨r2, hr2⟩ := hB
    have hread1 : readLEAt 2 raw f.Offset = .ok dOff :=
      readLEAt_prefix hr1 (by omega) (by norm_num; omega)
    have hread2 : readLEAt 2 raw (f.Offset + 2) = .ok dLen :=
      readLEAt_prefix hr2 (by omega) (by norm_num; omega)
    simp [decodeOneField, hc, hread1, hread2]
  · rw [hc] at hob hlb hloc
    norm_num at hob hlb hloc
    obtain ⟨hA, hB⟩ := prefixAt_append hloc
    have hbnd := prefixAt_bound hA (leBytes_ne_nil 4 dOff (by norm_num))
    rw [leBytes_length] at hbnd
    rw [leBytes_length] at hB
    obtain ⟨r1, hr1⟩ := hA
    obtain ⟨r2, hr2⟩ := hB
    have hread1 : readLEAt 4 raw f.Offset = .ok dOff :=
      readLEAt_prefix hr1 (by omega) (by norm_num; omega)
    have hread2 : readLEAt 4 raw (f.Offset + 4) = .ok dLen :=
      readLEAt_prefix hr2 (by omega) (by norm_num; omega)
    simp [decodeOneField, hc, hread1, hread2]

theorem decodeDynamic_str_eq {raw : List Nat} {f : TEField} {dOff dLen l2 : Nat}
    {bs : List Nat}
    (hty : f.dataType = .tstring)
    (hs : stripLen raw dOff dLen = .ok l2)
    (hg : goSubslice raw dOff (dOff + l2) = .ok bs) :
    decodeDynamic raw f dOff dLen = .ok (.str bs) := by
  rw [decodeDynamic, if_pos hty, hs]
  show (match goSubslice raw dOff (dOff + l2) with
    | DecRes.ok cs => DecRes.ok (FieldValue.str cs)
    | DecRes.err m => DecRes.err m
    | DecRes.crash => DecRes.crash) = DecRes.ok (.str bs)
  rw [hg]

theorem stripLen_zero (raw : List Nat) (dOff : Nat) : stripLen raw dOff 0 = .ok 0 := by
  rw [stripLen, if_neg (by omega)]

theorem stripLen_pos {raw : List Nat} {dOff dLen : Nat} (hpos : 0 < dLen)
    (hidx : dOff + dLen - 1 < raw.length) :
    stripLen raw dOff dLen =
      .ok (if raw.getD (dOff + dLen - 1) 0 = 0 then dLen - 1 else dLen) := by
  rw [stripLen, if_pos hpos, goIndex_of_lt hidx]

theorem decodeDynamic_string {raw : List Nat} {f : TEField} {dOff : Nat} {inline : List Nat}
    (hty : f.dataType = .tstring)
    (hinl : prefixAt raw dOff inline)
    (hbound : dOff + inline.length ≤ raw.length) :
    decodeDynamic raw f dOff inline.length = .ok (.str (stripNul inline)) := by
  obtain ⟨r2, hr2⟩ := hinl
  rcases Nat.eq_zero_or_pos inline.length with hlen0 | hlenpos
  · have hnil : inline = [] := List.length_eq_zero.mp hlen0
    subst hnil
    have h1 : stripLen raw dOff (List.length ([] : List Nat)) = .ok 0 := stripLen_zero raw dOff
    have hbs : goSubslice raw dOff (dOff + 0) = .ok [] := by
      rw [goSubslice_of_le (by omega) (by omega : dOff + 0 ≤ raw.length)]
      have hsub := subslice_prefix (m := 0) hr2 (by simp)
      simp only [List.take_nil] at hsub
      rw [hsub]
    have heq := decodeDynamic_str_eq hty h1 hbs
    have hstripn : stripNul [] = ([] : List Nat) := by
      rw [stripNul, if_neg (by simp)]
    rw [hstripn]
    exact heq
  · have hidx : dOff + inline.length - 1 < raw.length := by omega
    have hgetD : raw.getD (dOff + inline.length - 1) 0 = inline.getD (inline.length - 1) 0 := by
      have h1 : dOff + inline.length - 1 = dOff + (inline.length - 1) := by omega
      rw [h1, ← getD_drop 0 raw dOff, hr2, List.getD_append _ _ _ _ (by omega)]
    have h1 := stripLen_pos hlenpos hidx
    rw [hgetD] at h1
    by_cases hb : inline.getD (inline.length - 1) 0 = 0
    · rw [if_pos hb] at h1
      have hbs : goSubslice raw dOff (dOff + (inline.length - 1)) = .ok inline.dropLast := by
        rw [goSubslice_of_le (by omega) (by omega : dOff + (inline.length - 1) ≤ raw.length),
          subslice_prefix hr2 (by omega), ← List.dropLast_eq_take]
      have hstripn : stripNul inline = inline.dropLast := by
        rw [stripNul, if_pos ⟨hlenpos, hb⟩]
      rw [hstripn]
      exact decodeDynamic_str_eq hty h1 hbs
    · rw [if_neg hb] at h1
      have hbs : goSubslice raw dOff (dOff + inline.length) = .ok inline := by
        rw [goSubslice_of_le (by omega) hbound, subslice_prefix hr2 (Nat.le_refl _),
          List.take_length]
      have hstripn : stripNul inline = inline := by
        rw [stripNul, if_neg (fun hcon => hb hcon.2)]
      rw [hstripn]
      exact decodeDynamic_str_eq hty h1 hbs

theorem laidField_decode {raw : List Nat} {f : TEField} {v : FieldValue}
    (h : LaidField raw f v) : decodeOneField raw f = .ok v := by
  cases h with
  | scalar v bytes hd ha henc hp =>
    obtain ⟨rest, hr⟩ := hp
    have hoff : f.Offset ≤ raw.length := by
      have := prefixAt_bound ⟨rest, hr⟩ (scalarEnc_ne_nil henc)
      omega
    simp only [decodeOneField, hd, ha, Nat.lt_irrefl, if_false, if_pos rfl,
      sliceFrom_of_le hoff, hr, decodeDataType_enc henc, if_true]
  | fixedArr vs hd ha hne helems =>
    have hlen : vs.length ≠ 0 := by simpa using hne
    simp only [decodeOneField, hd, Nat.lt_irrefl, if_false, ha]
    rw [if_neg hlen, elemsLaid_decode helems]
  | dynString dOff inline hdl hty hob hlb hloc hinl hbound =>
    rw [decodeOneField_dyn hdl hob hlb hloc]
    exact decodeDynamic_string hty hinl hbound
  | dynArr dOff vs hdl hty hdts hob hlb hloc helems =>
    rw [decodeOneField_dyn hdl hob hlb hloc, decodeDynamic, if_neg hty,
      if_neg (by omega : ¬ f.dataTypeSize = 0), Nat.mul_div_cancel _ hdts,
      elemsLaid_decode helems]

theorem decodeFields_laid (raw : List Nat) :
    ∀ (fvs : List (TEField × FieldValue)) (acc : List (String × FieldValue)),
      (∀ p ∈ fvs, LaidField raw p.1 p.2) →
      ((fvs.map fun p => p.1.FieldName).Nodup) →
      ∃ data, decodeFields raw (fvs.map Prod.fst) acc = .ok data ∧
        (∀ p ∈ fvs, lookupA data p.1.FieldName = some p.2) ∧
        (∀ q, (∀ p ∈ fvs, q ≠ p.1.FieldName) → lookupA data q = lookupA acc q) := by
  intro fvs
  induction fvs with
  | nil =>
    intro acc _ _
    exact ⟨acc, rfl, by simp, fun q _ => rfl⟩
  | cons p rest ih =>
    intro acc hlaid hnodup
    obtain ⟨f, v⟩ := p
    have hdec : decodeOneField raw f = .ok v := laidField_decode (hlaid (f, v) (by simp))
    simp only [List.map_cons, List.nodup_cons] at hnodup
    have hnotin : ∀ p2 ∈ rest, f.FieldName ≠ p2.1.FieldName := by
      intro p2 hp2 heq
      exact hnodup.1 (by
        rw [heq]
        exact List.mem_map.mpr ⟨p2, hp2, rfl⟩)
    obtain ⟨data, hdata, hmem, hframe⟩ :=
      ih (updA f.FieldName v acc) (fun p2 hp2 => hlaid p2 (by simp [hp2])) hnodup.2
    refine ⟨data, ?_, ?_, ?_⟩
    · simp only [List.map_cons, decodeFields, hdec]
      exact hdata
    · intro p2 hp2
      rcases List.mem_cons.mp hp2 with heq | hmem2
      · subst heq
        rw [hframe f.FieldName hnotin, lookupA_updA]
        simp
      · exact hmem p2 hmem2
    · intro q hq
      have hq1 : q ≠ f.FieldName := hq (f, v) (by simp)
      have hq2 : ∀ p2 ∈ rest, q ≠ p2.1.FieldName := fun p2 hp2 => hq p2 (by simp [hp2])
      rw [hframe q hq2, lookupA_updA, if_neg hq1]

theorem regInv_empty (env : RegEnv) : RegInv env emptyDM := by
  constructor
  · intro n id h
    simp [emptyDM, lookupA] at h
  · intro id d h
    simp [emptyDM, lookupA] at h

theorem regInv_dmAdd (env : RegEnv) (hinj : ∀ a b, env.schemaId a = env.schemaId b → a = b)
    (name : String) (fn : Nat) (dm : DMapV) (h : RegInv env dm) :
    RegInv env (dmAdd env name fn dm) := by
  obtain ⟨h1, h2⟩ := h
  constructor
  · intro n id hn
    simp only [dmAdd] at hn ⊢
    rw [lookupA_updA] at hn
    by_cases hcase : n = name
    · subst hcase
      rw [if_pos rfl] at hn
      have hid : id = env.schemaId n := (Option.some.inj hn).symm
      refine ⟨hid, ⟨n, fn⟩, ?_, rfl⟩
      rw [lookupA_updA, if_pos hid]
    · rw [if_neg hcase] at hn
      obtain ⟨hid, d, hd, hsrc⟩ := h1 n id hn
      refine ⟨hid, d, ?_, hsrc⟩
      rw [lookupA_updA, if_neg ?_]
      · exact hd
      · intro heq
        exact hcase (hinj n name (by rw [← hid, heq]))
  · intro id d hd
    simp only [dmAdd] at hd ⊢
    rw [lookupA_updA] at hd
    by_cases hcase : id = env.schemaId name
    · rw [if_pos hcase] at hd
      have hdval : d = ⟨name, fn⟩ := (Option.some.inj hd).symm
      subst hdval
      rw [lookupA_updA, if_pos rfl, hcase]
    · rw [if_neg hcase] at hd
      have hold := h2 id d hd
      rw [lookupA_updA, if_neg ?_]
      · exact hold
      · intro heq
        obtain ⟨hid2, _⟩ := h1 d.srcName id hold
        exact hcase (by rw [hid2, heq])

theorem regInv_erase (env : RegEnv) (hinj : ∀ a b, env.schemaId a = env.schemaId b → a = b)
    (dm : DMapV) (name : String) (id : Nat)
    (h : RegInv env dm) (hid : lookupA dm.names name = some id) :
    RegInv env ⟨eraseA id dm.decoders, eraseA name dm.names⟩ := by
  obtain ⟨h1, h2⟩ := h
  have hidval : id = env.schemaId name := (h1 name id hid).1
  constructor
  · intro n id2 hn
    dsimp only at hn ⊢
    rw [lookupA_eraseA] at hn
    by_cases hcase : n = name
    · rw [if_pos hcase] at hn
      exact absurd hn (by simp)
    · rw [if_neg hcase] at hn
      obtain ⟨hid2, d, hd, hsrc⟩ := h1 n id2 hn
      refine ⟨hid2, d, ?_, hsrc⟩
      rw [lookupA_eraseA, if_neg ?_]
      · exact hd
      · intro heq
        exact hcase (hinj n name (by rw [← hid2, heq, hidval]))
  · intro id2 d hd
    dsimp only at hd ⊢
    rw [lookupA_eraseA] at hd
    by_cases hcase : id2 = id
    · rw [if_pos hcase] at hd
      exact absurd hd (by simp)
    · rw [if_neg hcase] at hd
      have hold := h2 id2 d hd
      rw [lookupA_eraseA, if_neg ?_]
      · exact hold
      · intro heq
        rw [heq] at hold
        rw [hold] at hid
        exact hcase (Option.some.inj hid)

theorem activeInv_step (env : RegEnv) (hinj : ∀ a b, env.schemaId a = env.schemaId b → a = b)
    (h : RegHeap) (op : SafeOp)
    (hin : ∀ dm, readActive h = some dm → RegInv env dm) :
    ∀ dm, readActive (applySafe env h op) = some dm → RegInv env dm := by
  intro dm hdm
  cases op with
  | add name fn =>
    simp only [applySafe, addDecoderSafe, readActive] at hdm
    rw [lookupA_updA, if_pos rfl] at hdm
    have hbase : RegInv env ((readActive h).getD emptyDM) := by
      cases hra : readActive h with
      | none => simpa [hra] using regInv_empty env
      | some dmb => simpa [hra] using hin dmb hra
    have hres := regInv_dmAdd env hinj name fn _ hbase
    rw [← Option.some.inj hdm]
    exact hres
  | remove name =>
    simp only [applySafe, removeDecoderSafe] at hdm
    cases hra : readActive h with
    | none =>
      simp only [hra] at hdm
      exact Option.noConfusion hdm
    | some dmb =>
      simp only [hra] at hdm
      cases hlk : lookupA dmb.names name with
      | none =>
        simp only [hlk] at hdm
        exact hin dm hdm
      | some id =>
        simp only [hlk, readActive] at hdm
        rw [lookupA_updA, if_pos rfl] at hdm
        rw [← Option.some.inj hdm]
        exact regInv_erase env hinj dmb name id (hin dmb hra) hlk

theorem activeInv_run (env : RegEnv) (hinj : ∀ a b, env.schemaId a = env.schemaId b → a = b) :
    ∀ (ops : List SafeOp) (h : RegHeap),
      (∀ dm, readActive h = some dm → RegInv env dm) →
      ∀ dm, readActive (runSafe env h ops) = some dm → RegInv env dm := by
  intro ops
  induction ops with
  | nil =>
    intro h hin dm hdm
    exact hin dm hdm
  | cons op ops ih =>
    intro h hin dm hdm
    exact ih (applySafe env h op) (activeInv_step env hinj h op hin) dm hdm

theorem char_toNat_inj (a b : Char) (h : a.toNat = b.toNat) : a = b := by
  have hv : a.val = b.val := UInt32.toNat.inj h
  exact Char.ext hv

theorem natsCode_inj : ∀ (a b : List Nat),
    (∀ x ∈ a, x < 4294967296) → (∀ x ∈ b, x < 4294967296) →
    natsCode a = natsCode b → a = b := by
  intro a
  induction a with
  | nil =>
    intro b _ hb h
    cases b with
    | nil => rfl
    | cons m ms =>
      exfalso
      simp only [natsCode] at h
      omega
  | cons n ns ih =>
    intro b hha hb h
    cases b with
    | nil =>
      exfalso
      simp only [natsCode] at h
      omega
    | cons m ms =>
      simp only [natsCode] at h
      have hn : n < 4294967296 := hha n (by simp)
      have hm : m < 4294967296 := hb m (by simp)
      have hnm : n = m ∧ natsCode ns = natsCode ms := by omega
      obtain ⟨h1, h2⟩ := hnm
      subst h1
      rw [ih ms (fun x hx => hha x (by simp [hx])) (fun x hx => hb x (by simp [hx])) h2]

theorem strCode_inj (a b : String) (h : strCode a = strCode b) : a = b := by
  have hm : a.data.map Char.toNat = b.data.map Char.toNat := by
    apply natsCode_inj
    · intro x hx
      obtain ⟨c, _, hc⟩ := List.mem_map.mp hx
      rw [← hc]
      exact c.val.toNat_lt
    · intro x hx
      obtain ⟨c, _, hc⟩ := List.mem_map.mp hx
      rw [← hc]
      exact c.val.toNat_lt
    · exact h
  have hdata : a.data = b.data := by
    have hinj : Function.Injective Char.toNat := fun x y => char_toNat_inj x y
    exact List.map_injective_iff.mpr hinj hm
  cases a
  cases b
  simp_all

theorem seqAfterCalls_mod (n : Nat) : seqAfterCalls n = n % UINT64MOD := by
  induction n with
  | zero => rfl
  | succ n ih =>
    rw [seqAfterCalls, ih, nextSequenceNumber]
    exact Nat.mod_add_mod n UINT64MOD 1

theorem dispatchLoop_block (smp : EMSample) (ev : Nat) :
    ∀ (pre : List SubChan) (s : SubChan) (post : List SubChan),
      (dispatchLoop smp ev pre).2 = false →
      subEligible smp s = true →
      s.cap ≤ s.buf.length →
      dispatchLoop smp ev (pre ++ s :: post) = ((dispatchLoop smp ev pre).1 ++ s :: post, true) := by
  intro pre
  induction pre with
  | nil =>
    intro s post _ hel hfull
    simp only [List.nil_append, dispatchLoop, hel, if_true]
    rw [if_neg (by omega)]
  | cons p pre ih =>
    intro s post hpre hel hfull
    cases hp : subEligible smp p with
    | true =>
      by_cases hroom : p.buf.length < p.cap
      · simp only [dispatchLoop, hp, if_true, if_pos hroom] at hpre ⊢
        have hrec := ih s post hpre hel hfull
        simp only [List.cons_append, dispatchLoop, hp, if_true, if_pos hroom, List.append_eq,
          hrec]
      · simp only [dispatchLoop, hp, if_true, if_neg hroom] at hpre
        exact absurd hpre (by simp)
    | false =>
      simp only [dispatchLoop, hp, Bool.false_eq_true, if_false] at hpre ⊢
      have hrec := ih s post hpre hel hfull
      simp only [List.cons_append, dispatchLoop, hp, Bool.false_eq_true, if_false, List.append_eq,
        hrec]

/-! Claim theorems. -/

/-- C4 counterexample: the claim says the value 0 is never emitted and every
emitted sequence number exceeds the previous one, but the uint64 counter in
Sensor.nextSequenceNumber wraps: the 18446744073709551616-th (2^64-th) call
returns 0. -/
theorem c4_counterexample : seqAfterCalls 18446744073709551616 = 0 := by
  rw [seqAfterCalls_mod, UINT64MOD]

/-- C4 (amended): as long as fewer than 2^64 events have been emitted, the
n-th call to nextSequenceNumber returns exactly n, so sequence numbers start
at 1, increase by exactly one per call, and are never 0; at the 2^64-th
call the counter wraps to 0. -/
theorem c4_amended (n : Nat) (h1 : 0 < n) (h2 : n < 18446744073709551616) :
    seqAfterCalls n = n ∧ seqAfterCalls n = seqAfterCalls (n - 1) + 1 ∧ seqAfterCalls n ≠ 0 := by
  have ha : seqAfterCalls n = n := by
    rw [seqAfterCalls_mod, UINT64MOD]
    omega
  have hb : seqAfterCalls (n - 1) = n - 1 := by
    rw [seqAfterCalls_mod, UINT64MOD]
    omega
  exact ⟨ha, by omega, by omega⟩

theorem c4_amended_witness :
    (0 < 5 ∧ 5 < 18446744073709551616) ∧
      (seqAfterCalls 5 = 5 ∧ seqAfterCalls 5 = seqAfterCalls (5 - 1) + 1 ∧ seqAfterCalls 5 ≠ 0) :=
  ⟨⟨by norm_num, by norm_num⟩, c4_amended 5 (by norm_num) (by norm_num)⟩

/-- C7: DecodeSample reads the event id as the low 16 bits of the
little-endian uint64 at the first 8 bytes of the raw payload, and when no
decoder is registered under that id it returns the empty result (no field
map, no typed event) and no error. -/
theorem c7_decode_sample (dm : Option DecoderMapVal) (s : SampleRecord)
    (h8 : 8 ≤ s.rawData.length)
    (habs : getDecoderM dm (leVal (s.rawData.take 8) % 65536) = none) :
    decodeSampleM dm s = .ok (none, none, none) := by
  have hr : readLE 8 s.rawData = .ok (leVal (s.rawData.take 8)) := by
    rw [readLE, if_pos h8]
  simp only [decodeSampleM, hr, habs]

theorem c7_decode_sample_witness :
    (8 ≤ (List.replicate 8 0 : List Nat).length ∧
      getDecoderM none (leVal ((List.replicate 8 0 : List Nat).take 8) % 65536) = none) ∧
    decodeSampleM none ⟨List.replicate 8 0, 0, 0⟩ = .ok (none, none, none) :=
  ⟨⟨by decide, rfl⟩, c7_decode_sample none ⟨List.replicate 8 0, 0, 0⟩ (by decide) rfl⟩

/-- C9: a field whose data type is string but which is not dynamic
(dataLocSize = 0), whether scalar or fixed-length array, makes decodeRawData
fail with the DecodeError of decodeDataType; only the slice expression
raw[offset:] is evaluated first, so the offset must be within the payload. -/
theorem c9_string_scalar_error (f : TEField) (fs : List TEField) (raw : List Nat)
    (hty : f.dataType = .tstring) (hd : f.dataLocSize = 0) (hoff : f.Offset ≤ raw.length) :
    decodeRawData (f :: fs) raw =
      .err "internal error; got unexpected TraceEventFieldTypeString" := by
  have hone : decodeOneField raw f =
      .err "internal error; got unexpected TraceEventFieldTypeString" := by
    by_cases ha : f.arraySize = 0
    · simp only [decodeOneField, hd, Nat.lt_irrefl, if_false, ha, if_pos rfl,
        sliceFrom_of_le hoff, hty, decodeDataType, if_true]
    · simp only [decodeOneField, hd, Nat.lt_irrefl, if_false, if_neg ha]
      cases hn : f.arraySize with
      | zero => exact absurd hn ha
      | succ n =>
        simp only [decodeArrayLoop, sliceFrom_of_le hoff, hty, decodeDataType]
  rw [decodeRawData, decodeFields, hone]

theorem c9_string_scalar_error_witness :
    ((⟨"s", 0, TEType.tstring, 1, 0, 0⟩ : TEField).dataType = TEType.tstring ∧
      (⟨"s", 0, TEType.tstring, 1, 0, 0⟩ : TEField).Offset ≤ ([1, 2] : List Nat).length) ∧
    decodeRawData [⟨"s", 0, TEType.tstring, 1, 0, 0⟩] [1, 2] =
      .err "internal error; got unexpected TraceEventFieldTypeString" :=
  ⟨⟨rfl, by decide⟩,
    c9_string_scalar_error ⟨"s", 0, TEType.tstring, 1, 0, 0⟩ [] [1, 2] rfl rfl (by decide)⟩

/-- C10: Sensor.NewEventFromSample reads the decoded common_pid field with an
unchecked Go type assertion.  Whenever the field map lacks the key
common_pid or holds it at a dynamic type other than int32, the call panics
instead of returning an event or an error. -/
theorem c10_common_pid_crash (env : SensorEnv) (st : SensorState) (now : Int)
    (sample : SampleRecord) (data : List (String × FieldValue))
    (h : hasCommonPidI32 data = false) :
    newEventFromSampleM env st now sample data = .crash := by
  rw [hasCommonPidI32] at h
  cases hlk : lookupA data "common_pid" with
  | none => simp only [newEventFromSampleM, hlk]
  | some val =>
    cases val with
    | i32 pid =>
      rw [hlk] at h
      simp at h
    | i8 v => simp only [newEventFromSampleM, hlk]
    | i16 v => simp only [newEventFromSampleM, hlk]
    | i64 v => simp only [newEventFromSampleM, hlk]
    | u8v v => simp only [newEventFromSampleM, hlk]
    | u16v v => simp only [newEventFromSampleM, hlk]
    | u32v v => simp only [newEventFromSampleM, hlk]
    | u64v v => simp only [newEventFromSampleM, hlk]
    | str bs => simp only [newEventFromSampleM, hlk]
    | arr vs => simp only [newEventFromSampleM, hlk]

theorem c10_common_pid_crash_witness :
    hasCommonPidI32 [] = false ∧
    newEventFromSampleM ⟨fun _ => none, fun _ => none, fun _ => none⟩ ⟨[], 0, 0⟩ 0 ⟨[], 0, 0⟩ [] =
      .crash :=
  ⟨rfl, c10_common_pid_crash ⟨fun _ => none, fun _ => none, fun _ => none⟩ ⟨[], 0, 0⟩ 0 ⟨[], 0, 0⟩ [] rfl⟩

/-- C5: for every snapshot published by a sequence of AddDecoder and
RemoveDecoder calls against the kernel-assigned (injective) name-to-id
assignment, the two maps are in bijection: every name resolves to its id
and to the decoder registered under that name, and every registered decoder
is reachable from exactly its source name. -/
theorem c5_bijection (env : RegEnv)
    (hinj : ∀ a b : String, env.schemaId a = env.schemaId b → a = b)
    (ops : List SafeOp) (dm : DMapV)
    (hread : readActive (runSafe env regInit ops) = some dm) :
    RegInv env dm :=
  activeInv_run env hinj ops regInit
    (by intro dm2 hd; simp [readActive, regInit] at hd) dm hread

theorem c5_bijection_witness :
    readActive (runSafe injEnv regInit [SafeOp.add "A" 7]) =
      some ⟨[(66, ⟨"A", 7⟩)], [("A", 66)]⟩ ∧
    RegInv injEnv ⟨[(66, ⟨"A", 7⟩)], [("A", 66)]⟩ :=
  ⟨by decide,
    c5_bijection injEnv (fun a b hab => strCode_inj a b hab) [SafeOp.add "A" 7]
      ⟨[(66, ⟨"A", 7⟩)], [("A", 66)]⟩ (by decide)⟩

/-- C6 counterexample: addDecoderInPlace mutates the published snapshot in
place.  After AddDecoder publishes cell 0, a reader holding that cell sees
its contents change when addDecoderInPlace runs, and no fresh cell is
published (active still references cell 0), refuting the claim that every
operation changing the decoder set builds a fresh map and leaves loaded
snapshots unchanged. -/
theorem c6_counterexample :
    readActive (addDecoderSafe injEnv "A" 10 regInit) = some ⟨[(66, ⟨"A", 10⟩)], [("A", 66)]⟩ ∧
    (addDecoderInPlace injEnv "B" 20 (addDecoderSafe injEnv "A" 10 regInit)).active = some 0 ∧
    readActive (addDecoderInPlace injEnv "B" 20 (addDecoderSafe injEnv "A" 10 regInit)) =
      some ⟨[(67, ⟨"B", 20⟩), (66, ⟨"A", 10⟩)], [("B", 67), ("A", 66)]⟩ ∧
    (⟨[(66, ⟨"A", 10⟩)], [("A", 66)]⟩ : DMapV) ≠
      ⟨[(67, ⟨"B", 20⟩), (66, ⟨"A", 10⟩)], [("B", 67), ("A", 66)]⟩ := by
  refine ⟨by decide, by decide, by decide, by decide⟩

/-- C6 (amended): the safe operations AddDecoder and RemoveDecoder never
mutate an existing snapshot cell: any cell a reader loaded keeps exactly its
value; only the fresh cell is published.  The in-place variants
addDecoderInPlace and removeDecoderInPlace do mutate the published cell
(see the counterexample). -/
theorem c6_amended (env : RegEnv) (name : String) (fn : Nat) (h : RegHeap) (r : Nat) (v : DMapV)
    (hwf : RegWF h) (hr : lookupA h.store r = some v) :
    lookupA (addDecoderSafe env name fn h).store r = some v ∧
    lookupA (removeDecoderSafe name h).store r = some v := by
  have hlt : r < h.next := hwf r v hr
  constructor
  · simp only [addDecoderSafe]
    rw [lookupA_updA, if_neg (by omega)]
    exact hr
  · cases hra : readActive h with
    | none =>
      simp only [removeDecoderSafe, hra]
      exact hr
    | some dm =>
      cases hlk : lookupA dm.names name with
      | none =>
        simp only [removeDecoderSafe, hra, hlk]
        exact hr
      | some id =>
        simp only [removeDecoderSafe, hra, hlk]
        rw [lookupA_updA, if_neg (by omega)]
        exact hr

theorem regWF_single (dm : DMapV) : RegWF ⟨[(0, dm)], 1, some 0⟩ := by
  intro r v hr
  by_cases h0 : r = 0
  · subst h0
    exact Nat.one_pos
  · simp [lookupA, h0] at hr

theorem c6_amended_witness :
    (RegWF ⟨[(0, ⟨[(66, ⟨"A", 10⟩)], [("A", 66)]⟩)], 1, some 0⟩ ∧
      lookupA (⟨[(0, ⟨[(66, ⟨"A", 10⟩)], [("A", 66)]⟩)], 1, some 0⟩ : RegHeap).store 0 =
        some ⟨[(66, ⟨"A", 10⟩)], [("A", 66)]⟩) ∧
    (lookupA (addDecoderSafe injEnv "B" 20 ⟨[(0, ⟨[(66, ⟨"A", 10⟩)], [("A", 66)]⟩)], 1, some 0⟩).store 0 =
        some ⟨[(66, ⟨"A", 10⟩)], [("A", 66)]⟩ ∧
      lookupA (removeDecoderSafe "A" ⟨[(0, ⟨[(66, ⟨"A", 10⟩)], [("A", 66)]⟩)], 1, some 0⟩).store 0 =
        some ⟨[(66, ⟨"A", 10⟩)], [("A", 66)]⟩) :=
  ⟨⟨regWF_single ⟨[(66, ⟨"A", 10⟩)], [("A", 66)]⟩, by decide⟩,
    c6_amended injEnv "B" 20 ⟨[(0, ⟨[(66, ⟨"A", 10⟩)], [("A", 66)]⟩)], 1, some 0⟩ 0
      ⟨[(66, ⟨"A", 10⟩)], [("A", 66)]⟩
      (regWF_single ⟨[(66, ⟨"A", 10⟩)], [("A", 66)]⟩) (by decide)⟩

/-- C2 counterexample: the claim says the dispatcher never blocks and drops
the newest event when a subscription channel is full.  With two
subscriptions on capacity-1 channels, the first full and the second empty,
the plain channel send in dispatchSample blocks the dispatcher (flag true)
and the second subscription receives nothing (both buffers unchanged). -/
theorem c2_counterexample :
    dispatchSampleM [⟨true, none, 1, [5]⟩, ⟨true, none, 1, []⟩] ⟨false, some 9, 0⟩ =
      ([⟨true, none, 1, [5]⟩, ⟨true, none, 1, []⟩], true) := rfl

/-- C2 (amended): dispatchSample sends with a plain blocking channel send.
When a subscription with a full bounded channel passes the filter, the
dispatcher blocks on that send (flag true), the event is not dropped, and
every subscription after it in the iteration receives nothing; the
subscriptions before it keep their deliveries. -/
theorem c2_amended (smp : EMSample) (ev : Nat) (pre post : List SubChan) (s : SubChan)
    (hdec : smp.decoded = some ev)
    (hpre : (dispatchLoop smp ev pre).2 = false)
    (hel : subEligible smp s = true)
    (hfull : s.cap ≤ s.buf.length) :
    dispatchSampleM (pre ++ s :: post) smp = ((dispatchLoop smp ev pre).1 ++ s :: post, true) := by
  rw [dispatchSampleM, hdec]
  exact dispatchLoop_block smp ev pre s post hpre hel hfull

theorem c2_amended_witness :
    ((⟨false, some 9, 0⟩ : EMSample).decoded = some 9 ∧
      (dispatchLoop ⟨false, some 9, 0⟩ 9 []).2 = false ∧
      subEligible ⟨false, some 9, 0⟩ ⟨true, none, 1, [5]⟩ = true ∧
      (⟨true, none, 1, [5]⟩ : SubChan).cap ≤ (⟨true, none, 1, [5]⟩ : SubChan).buf.length) ∧
    dispatchSampleM ([] ++ ⟨true, none, 1, [5]⟩ :: [⟨true, none, 1, []⟩]) ⟨false, some 9, 0⟩ =
      ((dispatchLoop ⟨false, some 9, 0⟩ 9 []).1 ++ ⟨true, none, 1, [5]⟩ :: [⟨true, none, 1, []⟩],
        true) :=
  ⟨⟨rfl, rfl, rfl, by decide⟩,
    c2_amended ⟨false, some 9, 0⟩ 9 [] [⟨true, none, 1, []⟩] ⟨true, none, 1, [5]⟩ rfl rfl rfl
      (by decide)⟩

/-- C3 counterexample: a schema field whose offset plus size lies past the
end of the raw payload makes decodeRawData panic (Go index/slice out of
range), not return a DecodeError: decoding that sample does not continue. -/
theorem c3_counterexample :
    decodeRawData [⟨"oob", 100, TEType.u32, 4, 0, 0⟩] [0, 0, 0, 0, 0, 0, 0, 0] = .crash ∧
    DecRes.isErr (decodeRawData [⟨"oob", 100, TEType.u32, 4, 0, 0⟩] [0, 0, 0, 0, 0, 0, 0, 0]) =
      false :=
  ⟨rfl, rfl⟩

theorem readLE_no_err (k : Nat) (s : List Nat) (msg : String) : readLE k s ≠ .err msg := by
  rw [readLE]
  split <;> simp

theorem sliceFrom_no_err (raw : List Nat) (off : Nat) (msg : String) :
    sliceFrom raw off ≠ .err msg := by
  rw [sliceFrom]
  split <;> simp

theorem goIndex_no_err (raw : List Nat) (i : Nat) (msg : String) : goIndex raw i ≠ .err msg := by
  rw [goIndex]
  split <;> simp

theorem goSubslice_no_err (raw : List Nat) (a b : Nat) (msg : String) :
    goSubslice raw a b ≠ .err msg := by
  rw [goSubslice]
  split <;> simp

theorem readLEAt_no_err (k : Nat) (raw : List Nat) (off : Nat) (msg : String) :
    readLEAt k raw off ≠ .err msg := by
  intro h
  rw [readLEAt] at h
  cases hs : sliceFrom raw off with
  | ok s =>
    simp only [hs] at h
    exact readLE_no_err k s msg h
  | err m =>
    exact sliceFrom_no_err raw off m hs
  | crash =>
    simp only [hs] at h
    exact DecRes.noConfusion h

theorem stripLen_no_err (raw : List Nat) (dOff dLen : Nat) (msg : String) :
    stripLen raw dOff dLen ≠ .err msg := by
  intro h
  rw [stripLen] at h
  by_cases hp : 0 < dLen
  · rw [if_pos hp] at h
    cases hg : goIndex raw (dOff + dLen - 1) with
    | ok b =>
      simp only [hg] at h
      exact DecRes.noConfusion h
    | err m =>
      exact goIndex_no_err raw (dOff + dLen - 1) m hg
    | crash =>
      simp only [hg] at h
      exact DecRes.noConfusion h
  · rw [if_neg hp] at h
    exact DecRes.noConfusion h

theorem decodeDataType_err {ty : TEType} {s : List Nat} {msg : String}
    (h : decodeDataType ty s = .err msg) :
    msg = "internal error; got unexpected TraceEventFieldTypeString" ∨
      msg = "internal error; undefined dataType" := by
  cases ty with
  | tstring =>
    simp only [decodeDataType] at h
    injection h with h2
    exact Or.inl h2.symm
  | other =>
    simp only [decodeDataType] at h
    injection h with h2
    exact Or.inr h2.symm
  | s8 =>
    simp only [decodeDataType] at h
    split at h <;> exact DecRes.noConfusion h
  | s16 =>
    simp only [decodeDataType] at h
    split at h <;> exact DecRes.noConfusion h
  | s32 =>
    simp only [decodeDataType] at h
    split at h <;> exact DecRes.noConfusion h
  | s64 =>
    simp only [decodeDataType] at h
    split at h <;> exact DecRes.noConfusion h
  | u8 =>
    simp only [decodeDataType] at h
    split at h <;> exact DecRes.noConfusion h
  | u16 =>
    simp only [decodeDataType] at h
    split at h <;> exact DecRes.noConfusion h
  | u32 =>
    simp only [decodeDataType] at h
    split at h <;> exact DecRes.noConfusion h
  | u64 =>
    simp only [decodeDataType] at h
    split at h <;> exact DecRes.noConfusion h

theorem decodeArrayLoop_err {raw : List Nat} {ty : TEType} {dts : Nat} :
    ∀ (m off : Nat) (msg : String), decodeArrayLoop raw ty dts off m = .err msg →
      msg = "internal error; got unexpected TraceEventFieldTypeString" ∨
        msg = "internal error; undefined dataType" := by
  intro m
  induction m with
  | zero =>
    intro off msg h
    exact DecRes.noConfusion h
  | succ n ih =>
    intro off msg h
    simp only [decodeArrayLoop] at h
    cases hs : sliceFrom raw off with
    | ok s =>
      simp only [hs] at h
      cases hd : decodeDataType ty s with
      | ok v =>
        simp only [hd] at h
        cases hr : decodeArrayLoop raw ty dts (off + dts) n with
        | ok vs =>
          simp only [hr] at h
          exact DecRes.noConfusion h
        | err m2 =>
          simp only [hr] at h
          injection h with h2
          subst h2
          exact ih (off + dts) m2 hr
        | crash =>
          simp only [hr] at h
          exact DecRes.noConfusion h
      | err m2 =>
        simp only [hd] at h
        injection h with h2
        subst h2
        exact decodeDataType_err hd
      | crash =>
        simp only [hd] at h
        exact DecRes.noConfusion h
    | err m2 =>
      exact absurd hs (sliceFrom_no_err raw off m2)
    | crash =>
      simp only [hs] at h
      exact DecRes.noConfusion h

theorem decodeDynamic_err {raw : List Nat} {f : TEField} {dOff dLen : Nat} {msg : String}
    (h : decodeDynamic raw f dOff dLen = .err msg) :
    msg = "internal error; got unexpected TraceEventFieldTypeString" ∨
      msg = "internal error; undefined dataType" := by
  rw [decodeDynamic] at h
  by_cases hty : f.dataType = .tstring
  · rw [if_pos hty] at h
    cases hs : stripLen raw dOff dLen with
    | ok l2 =>
      simp only [hs] at h
      cases hg : goSubslice raw dOff (dOff + l2) with
      | ok bs =>
        simp only [hg] at h
        exact DecRes.noConfusion h
      | err m2 =>
        exact absurd hg (goSubslice_no_err raw dOff (dOff + l2) m2)
      | crash =>
        simp only [hg] at h
        exact DecRes.noConfusion h
    | err m2 =>
      exact absurd hs (stripLen_no_err raw dOff dLen m2)
    | crash =>
      simp only [hs] at h
      exact DecRes.noConfusion h
  · rw [if_neg hty] at h
    by_cases hdts : f.dataTypeSize = 0
    · rw [if_pos hdts] at h
      exact DecRes.noConfusion h
    · rw [if_neg hdts] at h
      cases hl : decodeArrayLoop raw f.dataType f.dataTypeSize dOff (dLen / f.dataTypeSize) with
      | ok vs =>
        simp only [hl] at h
        exact DecRes.noConfusion h
      | err m2 =>
        simp only [hl] at h
        injection h with h2
        subst h2
        exact decodeArrayLoop_err (dLen / f.dataTypeSize) dOff m2 hl
      | crash =>
        simp only [hl] at h
        exact DecRes.noConfusion h

theorem decodeOneField_err {raw : List Nat} {f : TEField} {msg : String}
    (h : decodeOneField raw f = .err msg) :
    msg = "internal error; got unexpected TraceEventFieldTypeString" ∨
      msg = "internal error; undefined dataType" ∨
      msg = "__data_loc size is neither 4 nor 8" := by
  rw [decodeOneField] at h
  by_cases hdl : 0 < f.dataLocSize
  · rw [if_pos hdl] at h
    by_cases h4 : f.dataLocSize = 4
    · rw [if_pos h4] at h
      cases h1 : readLEAt 2 raw f.Offset with
      | ok dOff =>
        simp only [h1] at h
        cases h2 : readLEAt 2 raw (f.Offset + 2) with
        | ok dLen =>
          simp only [h2] at h
          rcases decodeDynamic_err h with hm | hm
          · exact Or.inl hm
          · exact Or.inr (Or.inl hm)
        | err m2 =>
          exact absurd h2 (readLEAt_no_err 2 raw (f.Offset + 2) m2)
        | crash =>
          simp only [h2] at h
          exact DecRes.noConfusion h
      | err m2 =>
        exact absurd h1 (readLEAt_no_err 2 raw f.Offset m2)
      | crash =>
        simp only [h1] at h
        exact DecRes.noConfusion h
    · rw [if_neg h4] at h
      by_cases h8 : f.dataLocSize = 8
      · rw [if_pos h8] at h
        cases h1 : readLEAt 4 raw f.Offset with
        | ok dOff =>
          simp only [h1] at h
          cases h2 : readLEAt 4 raw (f.Offset + 4) with
          | ok dLen =>
            simp only [h2] at h
            rcases decodeDynamic_err h with hm | hm
            · exact Or.inl hm
            · exact Or.inr (Or.inl hm)
          | err m2 =>
            exact absurd h2 (readLEAt_no_err 4 raw (f.Offset + 4) m2)
          | crash =>
            simp only [h2] at h
            exact DecRes.noConfusion h
        | err m2 =>
          exact absurd h1 (readLEAt_no_err 4 raw f.Offset m2)
        | crash =>
          simp only [h1] at h
          exact DecRes.noConfusion h
      · rw [if_neg h8] at h
        injection h with h2
        exact Or.inr (Or.inr h2.symm)
  · rw [if_neg hdl] at h
    by_cases ha : f.arraySize = 0
    · rw [if_pos ha] at h
      cases hs : sliceFrom raw f.Offset with
      | ok s =>
        simp only [hs] at h
        rcases decodeDataType_err h with hm | hm
        · exact Or.inl hm
        · exact Or.inr (Or.inl hm)
      | err m2 =>
        exact absurd hs (sliceFrom_no_err raw f.Offset m2)
      | crash =>
        simp only [hs] at h
        exact DecRes.noConfusion h
    · rw [if_neg ha] at h
      cases hl : decodeArrayLoop raw f.dataType f.dataTypeSize f.Offset f.arraySize with
      | ok vs =>
        simp only [hl] at h
        exact DecRes.noConfusion h
      | err m2 =>
        simp only [hl] at h
        injection h with h2
        subst h2
        rcases decodeArrayLoop_err f.arraySize f.Offset m2 hl with hm | hm
        · exact Or.inl hm
        · exact Or.inr (Or.inl hm)
      | crash =>
        simp only [hl] at h
        exact DecRes.noConfusion h

theorem decodeFields_err {raw : List Nat} :
    ∀ (fields : List TEField) (acc : List (String × FieldValue)) (msg : String),
      decodeFields raw fields acc = .err msg →
      msg = "internal error; got unexpected TraceEventFieldTypeString" ∨
        msg = "internal error; undefined dataType" ∨
        msg = "__data_loc size is neither 4 nor 8" := by
  intro fields
  induction fields with
  | nil =>
    intro acc msg h
    exact DecRes.noConfusion h
  | cons f fs ih =>
    intro acc msg h
    simp only [decodeFields] at h
    cases ho : decodeOneField raw f with
    | ok v =>
      simp only [ho] at h
      exact ih (updA f.FieldName v acc) msg h
    | err m2 =>
      simp only [ho] at h
      injection h with h2
      subst h2
      exact decodeOneField_err ho
    | crash =>
      simp only [ho] at h
      exact DecRes.noConfusion h

theorem decodeDataType_short {ty : TEType} {k : Nat} (hk : scalarSize ty = some k)
    {s : List Nat} (h : s.length < k) : decodeDataType ty s = .crash := by
  cases ty <;> simp only [scalarSize] at hk
  all_goals first
  | exact Option.noConfusion hk
  | (obtain rfl := Option.some.inj hk
     simp only [decodeDataType, readLE]
     rw [if_neg (by omega)])

theorem decodeDataType_long {ty : TEType} {k : Nat} (hk : scalarSize ty = some k)
    {s : List Nat} (h : k ≤ s.length) : ∃ v, decodeDataType ty s = .ok v := by
  cases ty <;> simp only [scalarSize] at hk
  case tstring => exact Option.noConfusion hk
  case other => exact Option.noConfusion hk
  case s8 =>
    obtain rfl := Option.some.inj hk
    exact ⟨.i8 (toSigned 8 (leVal (s.take 1))), by
      simp only [decodeDataType, readLE]
      rw [if_pos h]⟩
  case s16 =>
    obtain rfl := Option.some.inj hk
    exact ⟨.i16 (toSigned 16 (leVal (s.take 2))), by
      simp only [decodeDataType, readLE]
      rw [if_pos h]⟩
  case s32 =>
    obtain rfl := Option.some.inj hk
    exact ⟨.i32 (toSigned 32 (leVal (s.take 4))), by
      simp only [decodeDataType, readLE]
      rw [if_pos h]⟩
  case s64 =>
    obtain rfl := Option.some.inj hk
    exact ⟨.i64 (toSigned 64 (leVal (s.take 8))), by
      simp only [decodeDataType, readLE]
      rw [if_pos h]⟩
  case u8 =>
    obtain rfl := Option.some.inj hk
    exact ⟨.u8v (leVal (s.take 1)), by
      simp only [decodeDataType, readLE]
      rw [if_pos h]⟩
  case u16 =>
    obtain rfl := Option.some.inj hk
    exact ⟨.u16v (leVal (s.take 2)), by
      simp only [decodeDataType, readLE]
      rw [if_pos h]⟩
  case u32 =>
    obtain rfl := Option.some.inj hk
    exact ⟨.u32v (leVal (s.take 4)), by
      simp only [decodeDataType, readLE]
      rw [if_pos h]⟩
  case u64 =>
    obtain rfl := Option.some.inj hk
    exact ⟨.u64v (leVal (s.take 8)), by
      simp only [decodeDataType, readLE]
      rw [if_pos h]⟩

theorem decodeArrayLoop_oob {raw : List Nat} {ty : TEType} {k : Nat}
    (hk : scalarSize ty = some k) :
    ∀ (m off : Nat), 0 < m → raw.length < off + m * k →
      decodeArrayLoop raw ty k off m = .crash := by
  intro m
  induction m with
  | zero =>
    intro off h0 _
    exact absurd h0 (Nat.lt_irrefl 0)
  | succ n ih =>
    intro off _ hoob
    by_cases hfirst : raw.length < off + k
    · by_cases hoff : off ≤ raw.length
      · have hshort : decodeDataType ty (raw.drop off) = .crash :=
          decodeDataType_short hk (s := raw.drop off) (by rw [List.length_drop]; omega)
        simp only [decodeArrayLoop, sliceFrom_of_le hoff, hshort]
      · have hcr : sliceFrom raw off = .crash := by
          rw [sliceFrom, if_neg hoff]
        simp only [decodeArrayLoop, hcr]
    · push_neg at hfirst
      have hoff : off ≤ raw.length := by omega
      obtain ⟨v, hv⟩ := decodeDataType_long hk (s := raw.drop off) (by rw [List.length_drop]; omega)
      rcases Nat.eq_zero_or_pos n with h0 | hn
      · exfalso
        subst h0
        omega
      · have hsucc : (n + 1) * k = n * k + k := Nat.succ_mul n k
        rw [hsucc] at hoob
        have hrec := ih (off + k) hn (by linarith)
        simp only [decodeArrayLoop, sliceFrom_of_le hoff, hv, hrec]

/-- C3 (amended): decodeRawData returns a DecodeError only for a bad
__data_loc size, a string in a scalar or array slot, or an undefined data
type (first conjunct, over every schema and payload).  Out-of-range
references instead cause a Go runtime panic (modelled as crash) that aborts
the decode of the sample: a scalar or fixed-array field whose offset plus
size lies past the end of the payload (second conjunct), and a dynamic
field whose decoded (offset, length) pair lies outside the sample (third
conjunct). -/
theorem c3_amended :
    (∀ (fields : List TEField) (raw : List Nat) (msg : String),
        decodeRawData fields raw = .err msg →
          msg = "internal error; got unexpected TraceEventFieldTypeString" ∨
          msg = "internal error; undefined dataType" ∨
          msg = "__data_loc size is neither 4 nor 8") ∧
    (∀ (f : TEField) (fs : List TEField) (raw : List Nat) (k : Nat),
        f.dataLocSize = 0 → scalarSize f.dataType = some k → f.dataTypeSize = k →
        raw.length < f.Offset + max 1 f.arraySize * k →
        decodeRawData (f :: fs) raw = .crash) ∧
    (∀ (f : TEField) (fs : List TEField) (raw : List Nat) (dOff dLen : Nat),
        (f.dataLocSize = 4 ∨ f.dataLocSize = 8) → f.dataType = .tstring →
        dOff < 2 ^ (8 * (f.dataLocSize / 2)) → dLen < 2 ^ (8 * (f.dataLocSize / 2)) →
        prefixAt raw f.Offset
          (leBytes (f.dataLocSize / 2) dOff ++ leBytes (f.dataLocSize / 2) dLen) →
        0 < dLen → raw.length < dOff + dLen →
        decodeRawData (f :: fs) raw = .crash) := by
  refine ⟨?_, ?_, ?_⟩
  · intro fields raw msg h
    exact decodeFields_err fields [] msg h
  · intro f fs raw k hd hk hdts hoob
    have hone : decodeOneField raw f = .crash := by
      by_cases ha : f.arraySize = 0
      · have hoob2 : raw.length < f.Offset + k := by
          rw [ha] at hoob
          simpa using hoob
        simp only [decodeOneField, hd, Nat.lt_irrefl, if_false, ha, if_pos rfl, if_true]
        by_cases hoff : f.Offset ≤ raw.length
        · have hshort : decodeDataType f.dataType (raw.drop f.Offset) = .crash :=
            decodeDataType_short hk (s := raw.drop f.Offset) (by rw [List.length_drop]; omega)
          simp only [sliceFrom_of_le hoff, hshort]
        · simp [sliceFrom, hoff]
      · have hpos : 0 < f.arraySize := Nat.pos_of_ne_zero ha
        have hmax : max 1 f.arraySize = f.arraySize := by omega
        rw [hmax] at hoob
        simp only [decodeOneField, hd, Nat.lt_irrefl, if_false]
        rw [if_neg ha, hdts, decodeArrayLoop_oob hk f.arraySize f.Offset hpos hoob]
    rw [decodeRawData, decodeFields, hone]
  · intro f fs raw dOff dLen hdl hty hob hlb hloc hdlen hoob
    have hone : decodeOneField raw f = .crash := by
      rw [decodeOneField_dyn hdl hob hlb hloc, decodeDynamic, if_pos hty]
      have hstrip : stripLen raw dOff dLen = .crash := by
        rw [stripLen, if_pos hdlen, goIndex, if_neg (by omega)]
      rw [hstrip]
    rw [decodeRawData, decodeFields, hone]

theorem c3_amended_witness :
    decodeRawData [⟨"oobscalar", 100, TEType.u32, 4, 0, 0⟩] [0, 0, 0, 0, 0, 0, 0, 0] = .crash ∧
    decodeRawData [⟨"oobarray", 2, TEType.u16, 2, 3, 0⟩] [0, 0, 0, 0, 0] = .crash ∧
    decodeRawData [⟨"oobdyn", 0, TEType.tstring, 1, 0, 4⟩] [10, 0, 9, 0] = .crash :=
  ⟨c3_amended.2.1 ⟨"oobscalar", 100, TEType.u32, 4, 0, 0⟩ [] [0, 0, 0, 0, 0, 0, 0, 0] 4
      rfl rfl rfl (by decide),
    c3_amended.2.1 ⟨"oobarray", 2, TEType.u16, 2, 3, 0⟩ [] [0, 0, 0, 0, 0] 2
      rfl rfl rfl (by decide),
    c3_amended.2.2 ⟨"oobdyn", 0, TEType.tstring, 1, 0, 4⟩ [] [10, 0, 9, 0] 10 9
      (Or.inl rfl) rfl (by decide) (by decide) ⟨[], by decide⟩ (by decide) (by decide)⟩

/-- C8: round-trip decode.  For any schema with distinct field names and any
payload synthesized by laying the field values out at the schema offsets
(scalars and fixed arrays little-endian, dynamic fields through an in-bounds
__data_loc word), decodeRawData succeeds and maps every field name to
exactly the laid-out value; for a dynamic string the decoded value is the
inline bytes with exactly one trailing NUL stripped iff one is present. -/
theorem c8_roundtrip (fvs : List (TEField × FieldValue)) (raw : List Nat)
    (hnodup : (fvs.map fun p => p.1.FieldName).Nodup)
    (hlaid : ∀ p ∈ fvs, LaidField raw p.1 p.2) :
    ∃ data, decodeRawData (fvs.map Prod.fst) raw = .ok data ∧
      ∀ p ∈ fvs, lookupA data p.1.FieldName = some p.2 := by
  obtain ⟨data, h1, h2, _⟩ := decodeFields_laid raw fvs [] hlaid hnodup
  exact ⟨data, h1, h2⟩

theorem c8_roundtrip_witness :
    ((([(⟨"pid", 8, TEType.u32, 4, 0, 0⟩, FieldValue.u32v 7),
        (⟨"comm", 12, TEType.tstring, 1, 0, 4⟩, FieldValue.str [99, 97, 116])] :
        List (TEField × FieldValue)).map
        fun p => p.1.FieldName).Nodup) ∧
    (∃ data,
      decodeRawData
          (([(⟨"pid", 8, TEType.u32, 4, 0, 0⟩, FieldValue.u32v 7),
             (⟨"comm", 12, TEType.tstring, 1, 0, 4⟩, FieldValue.str [99, 97, 116])] :
             List (TEField × FieldValue)).map Prod.fst)
          [66, 0, 0, 0, 0, 0, 0, 0, 7, 0, 0, 0, 16, 0, 4, 0, 99, 97, 116, 0] = .ok data ∧
      ∀ p ∈ ([(⟨"pid", 8, TEType.u32, 4, 0, 0⟩, FieldValue.u32v 7),
              (⟨"comm", 12, TEType.tstring, 1, 0, 4⟩, FieldValue.str [99, 97, 116])] :
              List (TEField × FieldValue)),
        lookupA data p.1.FieldName = some p.2) := by
  constructor
  · decide
  · refine c8_roundtrip _ _ (by decide) ?_
    intro p hp
    simp only [List.mem_cons, List.not_mem_nil, or_false] at hp
    rcases hp with h | h
    · subst h
      exact LaidField.scalar _ _ (leBytes 4 7) rfl rfl (ScalarEnc.u32 7 (by norm_num))
        ⟨[16, 0, 4, 0, 99, 97, 116, 0], by decide⟩
    · subst h
      have hstrip : FieldValue.str (stripNul [99, 97, 116, 0]) = FieldValue.str [99, 97, 116] := by
        have h2 : stripNul [99, 97, 116, 0] = [99, 97, 116] := by decide
        rw [h2]
      exact hstrip ▸ LaidField.dynString _ 16 [99, 97, 116, 0] (Or.inl rfl) rfl (by decide)
        (by decide) ⟨[99, 97, 116, 0], by decide⟩ ⟨[], by decide⟩ (by decide)

/-- C1: the event id computed by Sensor.NewEvent does not cover the sensor
id.  binary.Write rejects the Go string sensor id with an error that
NewEvent ignores, so the digest input is only u64le(sequence) followed by
i64le(monotime).  At the specification's own reproducibility input
(sensor id = 64 repetitions of the byte 0x61, sequence 1, monotime 500) the
code's id is the digest of those 16 bytes and differs from the digest the
specification claims (sensor-id bytes included). -/
theorem c1_event_id_eval :
    newEventID (List.replicate 64 97) 1 500 =
      "7caa04034c80ac61d251babec4bf83cde9f2942c4cbbf3272efc7532fc1159a3" ∧
    specEventID (List.replicate 64 97) 1 500 =
      "a35595e46f9a72ae8207311243b805066a2e7050f43159b94ecb0d8450524c11" ∧
    newEventID (List.replicate 64 97) 1 500 ≠ specEventID (List.replicate 64 97) 1 500 := by
  have h1 : newEventID (List.replicate 64 97) 1 500 =
      "7caa04034c80ac61d251babec4bf83cde9f2942c4cbbf3272efc7532fc1159a3" := by decide
  have h2 : specEventID (List.replicate 64 97) 1 500 =
      "a35595e46f9a72ae8207311243b805066a2e7050f43159b94ecb0d8450524c11" := by decide
  refine ⟨h1, h2, ?_⟩
  rw [h1, h2]
  decide
